import Mathlib

/-!
Shallow embedding of the AiDevServerWatcher repository (TypeScript, Bun).

Source files embedded here:
* src/src/watcher.ts — PortWatcher (two revisions: single-base and
  multi-base; the shared pieces tryKill and matchesFilter are textually
  identical in both revisions and are embedded once)
* src/src/process-watcher.ts — ProcessWatcher
* src/unnamed/part_000 — CLI entry point (strategy validation)
* src/unnamed/part_001 and part_002 — system shims (getPorts,
  getAllTcpPorts, getProcessInfo, killProcess, getMatchingProcesses);
  these spawn OS commands and are modelled as an environment record of
  abstract functions.

Machine integers of the source (pids, ports, millisecond timestamps) are
modelled as Nat and Int; JavaScript numbers never overflow in the ranges
this program manipulates.  Timestamps are Int milliseconds.  Strings are
Lean Strings; the string operations used by the source (toLowerCase,
includes, trim, the 14-digit timestamp regex) are defined below at the
character-list level over the ASCII range the program works with.
JavaScript for-of loops over arrays and Maps are embedded as structural
recursion over the list of entries in insertion order, which is the
iteration order JavaScript guarantees.
-/

namespace AiDevServerWatcher

/-- ASCII lowering of a string to a character list, modelling the JavaScript
call command.toLowerCase() on the ASCII range used by process names and
filter terms. -/
def lowerStr (s : String) : List Char :=
  s.data.map Char.toLower

/-- Contiguous-substring test on character lists, modelling the JavaScript
call haystack.includes(needle). -/
def containsSub (hay needle : List Char) : Bool :=
  match hay with
  | [] => needle.isEmpty
  | _ :: rest => needle.isPrefixOf hay || containsSub rest needle

/-- Whitespace characters stripped by JavaScript String.prototype.trim
(restricted to the ASCII whitespace actually occurring in command lines). -/
def jsWs (c : Char) : Bool :=
  c = ' ' || c = '\t' || c = '\n' || c = '\r' || c = '\x0b' || c = '\x0c'

/-- Character-list model of JavaScript String.prototype.trim. -/
def trimL (cs : List Char) : List Char :=
  ((cs.dropWhile jsWs).reverse.dropWhile jsWs).reverse

/-- types.ts ProcessInfo: one entry of a process snapshot or of a point
lookup, as produced by the system shims. -/
structure ProcessInfo where
  pid : Nat
  command : String
  ppid : Option Nat := none
  creationDate : Option String := none
deriving DecidableEq

/-- types.ts WatcherConfig, as assembled by the CLI entry point. -/
structure WatcherConfig where
  basePort : Int := 0
  basePorts : List Int := []
  range : Int := 0
  interval : Int := 1000
  strategy : String := "chain"
  filter : List String := []
  dryRun : Bool := false
  maxAge : Option Int := none

/-- The system shims (system.ts): the point process lookup getProcessInfo
and the success of a killProcess termination request.  Both spawn OS
commands in the source; here they are an abstract environment. -/
structure SysEnv where
  procInfo : Nat → Option ProcessInfo
  killOk : Nat → Bool

/-- A port snapshot or the port known-set: the contents of the JavaScript
Map from port to owner pid (keys unique, entries in insertion order). -/
abbrev PortMap := List (Int × Nat)

/-- Map.get on a port map. -/
def lookupPort (m : PortMap) (port : Int) : Option Nat :=
  (m.find? fun e => e.1 = port).map (·.2)

/-- Map.has on a port map. -/
def hasPort (m : PortMap) (port : Int) : Bool :=
  (m.find? fun e => e.1 = port).isSome

/-- Outcome of one PortWatcher.tryKill call: which branch the body took. -/
inductive KillOutcome where
  | skipGone
  | skipFilter
  | dryRunLogged
  | killed
  | failed
deriving DecidableEq

/-- True exactly when the outcome corresponds to killProcess having been
invoked (the taskkill or kill command actually spawned). -/
def issuesKill : KillOutcome → Bool
  | .killed => true
  | .failed => true
  | _ => false

namespace PortWatcher

/-- watcher.ts matchesFilter (identical in both revisions): with an empty or
missing filter list the answer is false; otherwise some filter term must
occur case-insensitively inside the command line. -/
def matchesFilter (filter : List String) (info : ProcessInfo) : Bool :=
  if filter.isEmpty then false
  else filter.any fun f => containsSub (lowerStr info.command) (lowerStr f)

/-- watcher.ts tryKill (identical in both revisions): re-fetch live process
info for the pid; skip if gone; skip if the command does not match the
filter; otherwise log the kill, then either dry-run-log or invoke
killProcess and report success or failure. -/
def tryKill (filter : List String) (dryRun : Bool) (env : SysEnv) (pid : Nat) :
    KillOutcome :=
  match env.procInfo pid with
  | none => .skipGone
  | some info =>
    if matchesFilter filter info then
      if dryRun then .dryRunLogged
      else if env.killOk pid then .killed
      else .failed
    else .skipFilter

/-- The strategy arm of watcher.ts handleNewPort: the local targetPort after
the strategy if-chain, starting from -1. -/
def resolveTarget (strategy : String) (basePort newPort : Int) : Int :=
  if strategy = "chain" then newPort - 1
  else if strategy = "kill-base" then
    if newPort > basePort then basePort else -1
  else -1

/-- watcher.ts handleNewPort, both revisions (the single-base revision reads
basePort from the config, the multi-base revision receives the relevant
base as an argument; the body is the same).  Returns the (port, pid) pair
passed on to tryKill, or none when the guards bail out. -/
def handleNewPort (strategy : String) (basePort : Int) (known : PortMap)
    (newPort : Int) (newPid : Nat) : Option (Int × Nat) :=
  let targetPort := resolveTarget strategy basePort newPort
  if targetPort ≥ basePort ∧ hasPort known targetPort then
    match lookupPort known targetPort with
    | none => none
    | some targetPid =>
      if targetPid = 0 ∨ targetPid = newPid then none
      else some (targetPort, targetPid)
  else none

/-- Result of one PortWatcher.tick: the replaced known-set, the list of
(port, pid) pairs handed to handleNewPort (new-port detections, in
iteration order), and the tryKill calls with their outcomes. -/
structure TickResult where
  known : PortMap
  dets : List (Int × Nat)
  killEvents : List (Nat × KillOutcome)
deriving DecidableEq

/-- The snapshot loop of watcher.ts tick, single-base revision: walk the
snapshot entries, and for every port absent from the (old) known-set run
handleNewPort and, when it yields a target, tryKill. -/
def tickGo (cfg : WatcherConfig) (env : SysEnv) (known : PortMap) :
    List (Int × Nat) → List (Nat × KillOutcome) → PortMap →
      List (Int × Nat) × List (Nat × KillOutcome)
  | dets, kes, [] => (dets, kes)
  | dets, kes, e :: rest =>
    if hasPort known e.1 then tickGo cfg env known dets kes rest
    else
      match handleNewPort cfg.strategy cfg.basePort known e.1 e.2 with
      | none => tickGo cfg env known (dets ++ [e]) kes rest
      | some t =>
        tickGo cfg env known (dets ++ [e])
          (kes ++ [(t.2, tryKill cfg.filter cfg.dryRun env t.2)]) rest

/-- watcher.ts tick, single-base revision: run the snapshot loop against the
old known-set, then replace the known-set with the snapshot. -/
def tick (cfg : WatcherConfig) (env : SysEnv) (known : PortMap)
    (snap : PortMap) : TickResult :=
  let r := tickGo cfg env known [] [] snap
  { known := snap, dets := r.1, killEvents := r.2 }

/-- watcher.ts getRelevantBase (multi-base revision): the first configured
base whose window [base, base + range] contains the port, or -1. -/
def getRelevantBase (cfg : WatcherConfig) (port : Int) : Int :=
  match cfg.basePorts.find? (fun b => b ≤ port ∧ port ≤ b + cfg.range) with
  | some b => b
  | none => -1

/-- The snapshot loop of watcher.ts tick, multi-base revision: only ports
inside some monitored window are considered; a new such port runs
handleNewPort with its relevant base. -/
def tickMBGo (cfg : WatcherConfig) (env : SysEnv) (known : PortMap) :
    List (Int × Nat) → List (Nat × KillOutcome) → PortMap →
      List (Int × Nat) × List (Nat × KillOutcome)
  | dets, kes, [] => (dets, kes)
  | dets, kes, e :: rest =>
    if getRelevantBase cfg e.1 = -1 then tickMBGo cfg env known dets kes rest
    else if hasPort known e.1 then tickMBGo cfg env known dets kes rest
    else
      match handleNewPort cfg.strategy (getRelevantBase cfg e.1) known e.1 e.2 with
      | none => tickMBGo cfg env known (dets ++ [e]) kes rest
      | some t =>
        tickMBGo cfg env known (dets ++ [e])
          (kes ++ [(t.2, tryKill cfg.filter cfg.dryRun env t.2)]) rest

/-- watcher.ts tick, multi-base revision: run the snapshot loop, then
replace the known-set with the full snapshot. -/
def tickMB (cfg : WatcherConfig) (env : SysEnv) (known : PortMap)
    (snap : PortMap) : TickResult :=
  let r := tickMBGo cfg env known [] [] snap
  { known := snap, dets := r.1, killEvents := r.2 }

/-- Observable behaviour of PortWatcher.start (both revisions). -/
structure StartResult where
  armed : Bool
  known : PortMap
  dets : List (Int × Nat)
  killEvents : List (Nat × KillOutcome)
deriving DecidableEq

/-- watcher.ts start (both revisions): log the configuration, assign the
initial scan to the known-set and arm the interval timer; the body calls
neither tick nor handleNewPort nor tryKill, so start itself performs no
detection and no kill decision. -/
def start (cfg : WatcherConfig) (initialSnap : PortMap) : StartResult :=
  let _ := cfg
  { armed := true, known := initialSnap, dets := [], killEvents := [] }

/-- The interval loop of the single-base port watcher after start: each tick
consumes the next snapshot; kill events are collected in order. -/
def runGo (cfg : WatcherConfig) (env : SysEnv) :
    PortMap → List (Nat × KillOutcome) → List PortMap →
      PortMap × List (Nat × KillOutcome)
  | known, kes, [] => (known, kes)
  | known, kes, snap :: rest =>
    let r := tick cfg env known snap
    runGo cfg env r.known (kes ++ r.killEvents) rest

/-- A whole run of the single-base port watcher: start seeds the known-set
from the first scan, then the interval loop processes the later
snapshots. -/
def run (cfg : WatcherConfig) (env : SysEnv) (initialSnap : PortMap)
    (snaps : List PortMap) : PortMap × List (Nat × KillOutcome) :=
  runGo cfg env (start cfg initialSnap).known [] snaps

/-- The interval loop of the multi-base port watcher after start. -/
def runMBGo (cfg : WatcherConfig) (env : SysEnv) :
    PortMap → List (Nat × KillOutcome) → List PortMap →
      PortMap × List (Nat × KillOutcome)
  | known, kes, [] => (known, kes)
  | known, kes, snap :: rest =>
    let r := tickMB cfg env known snap
    runMBGo cfg env r.known (kes ++ r.killEvents) rest

/-- A whole run of the multi-base port watcher. -/
def runMB (cfg : WatcherConfig) (env : SysEnv) (initialSnap : PortMap)
    (snaps : List PortMap) : PortMap × List (Nat × KillOutcome) :=
  runMBGo cfg env (start cfg initialSnap).known [] snaps

end PortWatcher

/-- CLI entry point (src/unnamed/part_000): the strategy string is valid
exactly when it is chain or kill-base. -/
def cliStrategyOk (s : String) : Bool :=
  s = "chain" || s = "kill-base"

/-- CLI entry point: if the strategy is invalid the process exits before any
watcher is constructed (modelled as none); otherwise the watcher is
constructed and started with the parsed configuration. -/
def cliAction (strategy : String) (cfg : WatcherConfig) : Option WatcherConfig :=
  if strategy ≠ "chain" ∧ strategy ≠ "kill-base" then none
  else some { cfg with strategy := strategy }

/-- process-watcher.ts ProcessRecord: tracked state for one observed pid. -/
structure ProcessRecord where
  pid : Nat
  command : String
  firstSeen : Int
  creationDate : Option String := none
  ppid : Option Nat := none
deriving DecidableEq

/-- Value of a decimal digit string (the JavaScript parseInt calls applied
to the captured digit groups of the timestamp regex). -/
def natOfDigits (cs : List Char) : Nat :=
  cs.foldl (fun n c => n * 10 + (c.toNat - 48)) 0

/-- The regex of getStartTime: six leading digit groups of widths
4,2,2,2,2,2 anchored at the start.  The match succeeds exactly when the
string starts with 14 digits, and then yields those 14 characters;
everything after them (fractional seconds, timezone offset) lies outside
the match. -/
def leading14 (s : String) : Option (List Char) :=
  let cs := s.data.take 14
  if cs.length = 14 ∧ cs.all Char.isDigit then some cs else none

/-- A stable-insertion step: place a before the first element b such that
le a b holds. -/
def insertSorted (le : α → α → Bool) (a : α) : List α → List α
  | [] => [a]
  | b :: bs => if le a b then a :: b :: bs else b :: insertSorted le a bs

/-- Stable ascending sort by the boolean comparator le.  JavaScript
Array.prototype.sort with comparator (a, b) => key(a) - key(b) is the
stable ascending sort by key, and a stable sort's output is uniquely
determined by the comparator and the input order, so this structural
insertion sort computes exactly the array the source obtains. -/
def stableSort (le : α → α → Bool) : List α → List α
  | [] => []
  | a :: as => insertSorted le a (stableSort le as)

namespace ProcessWatcher

/-- process-watcher.ts getStartTime.  The parameter mk abstracts the
JavaScript expression new Date(year, month - 1, day, hour, minute,
second).getTime() applied to the six parsed digit groups (local calendar
arithmetic is outside the program).  On regex failure or a missing
creationDate the record firstSeen is returned. -/
def getStartTime (mk : Nat → Nat → Nat → Nat → Nat → Nat → Int)
    (r : ProcessRecord) : Int :=
  match r.creationDate with
  | none => r.firstSeen
  | some s =>
    match leading14 s with
    | none => r.firstSeen
    | some cs =>
      mk (natOfDigits (cs.take 4)) (natOfDigits ((cs.drop 4).take 2))
        (natOfDigits ((cs.drop 6).take 2)) (natOfDigits ((cs.drop 8).take 2))
        (natOfDigits ((cs.drop 10).take 2)) (natOfDigits ((cs.drop 12).take 2))

/-- Result branch of one ProcessWatcher.kill call. -/
inductive PKillResult where
  | skippedDryRun
  | killed
  | failed
deriving DecidableEq

/-- True exactly when the result corresponds to killProcess having been
invoked on the process path. -/
def pIssuesKill : PKillResult → Bool
  | .killed => true
  | .failed => true
  | _ => false

/-- process-watcher.ts kill: in dry-run mode log and return without touching
state; otherwise invoke killProcess and, on success, delete the pid from
the known-set (the Map holds at most one record per pid, so the filter
removes exactly the Map.delete entry); on failure leave state untouched. -/
def kill (dryRun : Bool) (killOk : Nat → Bool) (known : List ProcessRecord)
    (pid : Nat) : List ProcessRecord × PKillResult :=
  if dryRun then (known, .skippedDryRun)
  else if killOk pid then (known.filter (fun r => r.pid ≠ pid), .killed)
  else (known, .failed)

/-- The result branch of kill in isolation: it depends only on the dry-run
flag and on killProcess succeeding, never on the known-set. -/
def killRes (dryRun : Bool) (killOk : Nat → Bool) (pid : Nat) : PKillResult :=
  if dryRun then .skippedDryRun
  else if killOk pid then .killed
  else .failed

/-- The command key used for duplicate grouping: record.command.trim(). -/
def cmdKey (r : ProcessRecord) : List Char :=
  trimL r.command.data

/-- Get-or-create-then-push on the byCommand grouping Map: append the record
to the entry of its key, creating the entry at the end on first sight
(JavaScript Map preserves insertion order). -/
def pushGroup (k : List Char) (r : ProcessRecord) :
    List (List Char × List ProcessRecord) → List (List Char × List ProcessRecord)
  | [] => [(k, [r])]
  | e :: rest =>
    if e.1 = k then (e.1, e.2 ++ [r]) :: rest
    else e :: pushGroup k r rest

/-- The same push operation for the per-command ppid clustering Map. -/
def pushCluster (k : Int) (r : ProcessRecord) :
    List (Int × List ProcessRecord) → List (Int × List ProcessRecord)
  | [] => [(k, [r])]
  | e :: rest =>
    if e.1 = k then (e.1, e.2 ++ [r]) :: rest
    else e :: pushCluster k r rest

/-- Map.set on the clustering Map: replace the value at the key in place, or
append a new entry at the end. -/
def setCluster (k : Int) (v : List ProcessRecord) :
    List (Int × List ProcessRecord) → List (Int × List ProcessRecord)
  | [] => [(k, v)]
  | e :: rest =>
    if e.1 = k then (k, v) :: rest
    else e :: setCluster k v rest

/-- The snapshot loop of steps 1-2 of process-watcher.ts tick: walk the
snapshot, reusing the known record for an already-known pid and creating
(and appending to the known Map) a fresh record with firstSeen = now
otherwise, while pushing each record onto the byCommand grouping keyed by
its trimmed command. -/
def step2Go (now : Int) :
    List ProcessRecord → List (List Char × List ProcessRecord) →
      List ProcessInfo →
      List ProcessRecord × List (List Char × List ProcessRecord)
  | kn, bc, [] => (kn, bc)
  | kn, bc, proc :: rest =>
    match kn.find? (fun r => r.pid = proc.pid) with
    | some r => step2Go now kn (pushGroup (cmdKey r) r bc) rest
    | none =>
      let r : ProcessRecord :=
        { pid := proc.pid, command := proc.command, firstSeen := now,
          creationDate := proc.creationDate, ppid := proc.ppid }
      step2Go now (kn ++ [r]) (pushGroup (cmdKey r) r bc) rest

/-- Steps 1-2 of tick, starting from the current known-set and an empty
byCommand grouping. -/
def step2 (now : Int) (known : List ProcessRecord) (snap : List ProcessInfo) :
    List ProcessRecord × List (List Char × List ProcessRecord) :=
  step2Go now known [] snap

/-- Step 3 of tick: delete every known pid absent from the snapshot. -/
def purgeStale (known : List ProcessRecord) (snap : List ProcessInfo) :
    List ProcessRecord :=
  known.filter (fun r => (snap.map (·.pid)).contains r.pid)

/-- The per-ppid clustering loop of step 4: records with a ppid are pushed
into the cluster of that ppid; records without one are collected aside in
order. -/
def clusterPassGo :
    List (Int × List ProcessRecord) → List ProcessRecord →
      List ProcessRecord →
      List (Int × List ProcessRecord) × List ProcessRecord
  | cl, noP, [] => (cl, noP)
  | cl, noP, r :: rest =>
    match r.ppid with
    | some p => clusterPassGo (pushCluster (p : Int) r cl) noP rest
    | none => clusterPassGo cl (noP ++ [r]) rest

/-- The loop that turns every parentless record into its own singleton
cluster, keyed by the negated pid. -/
def setSingles :
    List (Int × List ProcessRecord) → List ProcessRecord →
      List (Int × List ProcessRecord)
  | cl, [] => cl
  | cl, r :: rest => setSingles (setCluster (-(r.pid : Int)) [r] cl) rest

/-- Step 4 clustering of one byCommand group: the ppid pass followed by the
singleton pass for parentless records. -/
def buildClusters (records : List ProcessRecord) :
    List (Int × List ProcessRecord) :=
  let p := clusterPassGo [] [] records
  setSingles p.1 p.2

/-- One entry of the clusterInfos array of step 4. -/
structure ClusterInfo where
  ppid : Int
  members : List ProcessRecord
  startTime : Int
deriving DecidableEq

/-- Fallback record for indexing members[0]; every cluster the code builds
is nonempty, so the fallback is never reached on reachable inputs. -/
def defaultRecord : ProcessRecord :=
  { pid := 0, command := "", firstSeen := 0 }

/-- The clusterInfos construction of step 4: members sorted ascending by
start time (stable sort, comparator getStartTime a - getStartTime b), and
the cluster start time is the start time of members[0], its earliest
member. -/
def mkClusterInfos (mk : Nat → Nat → Nat → Nat → Nat → Nat → Int)
    (cl : List (Int × List ProcessRecord)) : List ClusterInfo :=
  cl.map fun e =>
    let sorted :=
      stableSort (fun a b => decide (getStartTime mk a ≤ getStartTime mk b)) e.2
    { ppid := e.1, members := sorted,
      startTime := getStartTime mk (sorted.headD defaultRecord) }

/-- The cluster sort of step 4: ascending by cluster start time, stable. -/
def sortClusterInfos (cis : List ClusterInfo) : List ClusterInfo :=
  stableSort (fun a b => decide (a.startTime ≤ b.startTime)) cis

/-- The sorted clusterInfos array computed by step 4 for one byCommand
group. -/
def clusterInfosOf (mk : Nat → Nat → Nat → Nat → Nat → Nat → Int)
    (records : List ProcessRecord) : List ClusterInfo :=
  sortClusterInfos (mkClusterInfos mk (buildClusters records))

/-- The pids one byCommand group sends to kill in step 4, in order: nothing
unless the group has more than one record; otherwise, when more than one
cluster exists, all members of every cluster except the last (newest) of
the sorted clusterInfos; nothing when only one cluster exists. -/
def clusterKills (mk : Nat → Nat → Nat → Nat → Nat → Nat → Int)
    (records : List ProcessRecord) : List Nat :=
  if 1 < records.length then
    let cis := clusterInfosOf mk records
    if 1 < cis.length then
      (cis.dropLast.map (fun ci => ci.members.map (·.pid))).flatten
    else []
  else []

/-- Send a list of pids through kill in order, threading the known-set and
recording each pid with its result. -/
def runKillListGo (dryRun : Bool) (killOk : Nat → Bool) :
    List ProcessRecord → List (Nat × PKillResult) → List Nat →
      List ProcessRecord × List (Nat × PKillResult)
  | kn, evs, [] => (kn, evs)
  | kn, evs, p :: ps =>
    let r := kill dryRun killOk kn p
    runKillListGo dryRun killOk r.1 (evs ++ [(p, r.2)]) ps

/-- Step 4 of tick: for every byCommand group run the cluster logic and send
its kill list through kill, threading the known-set. -/
def step4Go (mk : Nat → Nat → Nat → Nat → Nat → Nat → Int) (dryRun : Bool)
    (killOk : Nat → Bool) :
    List ProcessRecord → List (Nat × PKillResult) →
      List (List Char × List ProcessRecord) →
      List ProcessRecord × List (Nat × PKillResult)
  | kn, evs, [] => (kn, evs)
  | kn, evs, g :: gs =>
    let r := runKillListGo dryRun killOk kn evs (clusterKills mk g.2)
    step4Go mk dryRun killOk r.1 r.2 gs

/-- The age condition of step 5: now - max(startTime, serviceStart) strictly
above the configured limit in milliseconds. -/
def ageExceeded (mk : Nat → Nat → Nat → Nat → Nat → Nat → Int)
    (maxAgeMs serviceStart now : Int) (r : ProcessRecord) : Bool :=
  decide (now - max (getStartTime mk r) serviceStart > maxAgeMs)

/-- The record loop of step 5: walk the known records, sending every record
whose effective age exceeds the limit through kill.  kill only ever deletes
the pid of the record currently visited, so walking the entry list present
when the loop starts coincides with live JavaScript Map iteration. -/
def step5Go (mk : Nat → Nat → Nat → Nat → Nat → Nat → Int) (dryRun : Bool)
    (killOk : Nat → Bool) (maxAgeMs serviceStart now : Int) :
    List ProcessRecord → List (Nat × PKillResult) → List ProcessRecord →
      List ProcessRecord × List (Nat × PKillResult)
  | kn, evs, [] => (kn, evs)
  | kn, evs, r :: rest =>
    if ageExceeded mk maxAgeMs serviceStart now r then
      let k := kill dryRun killOk kn r.pid
      step5Go mk dryRun killOk maxAgeMs serviceStart now k.1
        (evs ++ [(r.pid, k.2)]) rest
    else step5Go mk dryRun killOk maxAgeMs serviceStart now kn evs rest

/-- Step 5 of tick: nothing unless maxAge is positive; otherwise the record
loop with the limit converted from minutes to milliseconds. -/
def step5 (mk : Nat → Nat → Nat → Nat → Nat → Nat → Int) (dryRun : Bool)
    (killOk : Nat → Bool) (maxAge serviceStart now : Int)
    (known : List ProcessRecord) :
    List ProcessRecord × List (Nat × PKillResult) :=
  if 0 < maxAge then
    step5Go mk dryRun killOk (maxAge * 60 * 1000) serviceStart now known [] known
  else (known, [])

/-- Result of one ProcessWatcher.tick: final known-set plus all kill calls
(pid, result) in order. -/
structure TickResult where
  known : List ProcessRecord
  killEvents : List (Nat × PKillResult)
deriving DecidableEq

/-- process-watcher.ts tick: snapshot walk and byCommand grouping, stale
purge, per-command cluster eviction, then max-age eviction with
maxAge = config.maxAge || 0. -/
def tick (mk : Nat → Nat → Nat → Nat → Nat → Nat → Int) (killOk : Nat → Bool)
    (cfg : WatcherConfig) (serviceStart now : Int)
    (known : List ProcessRecord) (snap : List ProcessInfo) : TickResult :=
  let s2 := step2 now known snap
  let known2 := purgeStale s2.1 snap
  let s4 := step4Go mk cfg.dryRun killOk known2 [] s2.2
  let maxAge := cfg.maxAge.getD 0
  let s5 := step5 mk cfg.dryRun killOk maxAge serviceStart now s4.1
  { known := s5.1, killEvents := s4.2 ++ s5.2 }

/-- Observable behaviour of ProcessWatcher.start. -/
structure StartResult where
  armed : Bool
  ranTick : Bool
  result : Option TickResult
deriving DecidableEq

/-- process-watcher.ts start: with no filter, log an error and return before
running any tick or arming the timer; otherwise run one full tick (on the
empty initial known-set) and arm the interval timer. -/
def start (mk : Nat → Nat → Nat → Nat → Nat → Nat → Int) (killOk : Nat → Bool)
    (cfg : WatcherConfig) (serviceStart now : Int)
    (snap : List ProcessInfo) : StartResult :=
  if cfg.filter.isEmpty then
    { armed := false, ranTick := false, result := none }
  else
    { armed := true, ranTick := true,
      result := some (tick mk killOk cfg serviceStart now [] snap) }

end ProcessWatcher

/-! ## General lemmas about the helper structures -/

theorem perm_insertSorted (le : α → α → Bool) (a : α) (l : List α) :
    (insertSorted le a l).Perm (a :: l) := by
  induction l with
  | nil => exact List.Perm.refl _
  | cons b bs ih =>
    simp only [insertSorted]
    by_cases h : le a b = true
    · rw [if_pos h]
    · rw [if_neg h]
      exact (ih.cons b).trans (List.Perm.swap a b bs)

theorem perm_stableSort (le : α → α → Bool) (l : List α) :
    (stableSort le l).Perm l := by
  induction l with
  | nil => exact List.Perm.refl _
  | cons a as ih =>
    simp only [stableSort]
    exact (perm_insertSorted le a _).trans (ih.cons a)

theorem pairwise_insertSorted (le : α → α → Bool)
    (htrans : ∀ x y z, le x y = true → le y z = true → le x z = true)
    (htot : ∀ x y, le x y = true ∨ le y x = true)
    (a : α) (l : List α)
    (hl : l.Pairwise (fun x y => le x y = true)) :
    (insertSorted le a l).Pairwise (fun x y => le x y = true) := by
  induction l with
  | nil => simp [insertSorted]
  | cons b bs ih =>
    rcases List.pairwise_cons.mp hl with ⟨hb, hbs⟩
    simp only [insertSorted]
    by_cases h : le a b = true
    · rw [if_pos h]
      refine List.pairwise_cons.mpr ⟨?_, hl⟩
      intro x hx
      rcases List.mem_cons.mp hx with rfl | hx
      · exact h
      · exact htrans a b x h (hb x hx)
    · rw [if_neg h]
      refine List.pairwise_cons.mpr ⟨?_, ih hbs⟩
      intro x hx
      have hx' := (perm_insertSorted le a bs).mem_iff.mp hx
      rcases List.mem_cons.mp hx' with rfl | hx'
      · rcases htot b x with hbx | hxb
        · exact hbx
        · exact absurd hxb h
      · exact hb x hx'

theorem pairwise_stableSort (le : α → α → Bool)
    (htrans : ∀ x y z, le x y = true → le y z = true → le x z = true)
    (htot : ∀ x y, le x y = true ∨ le y x = true)
    (l : List α) :
    (stableSort le l).Pairwise (fun x y => le x y = true) := by
  induction l with
  | nil => simp [stableSort]
  | cons a as ih =>
    simp only [stableSort]
    exact pairwise_insertSorted le htrans htot a _ ih

theorem hasPort_eq (m : PortMap) (p : Int) :
    hasPort m p = (lookupPort m p).isSome := by
  unfold hasPort lookupPort
  cases m.find? (fun e => e.1 = p) <;> rfl

theorem lookupPort_mem (m : PortMap) (port : Int) (q : Nat)
    (h : lookupPort m port = some q) : (port, q) ∈ m := by
  unfold lookupPort at h
  cases hf : m.find? (fun e => e.1 = port) with
  | none => rw [hf] at h; exact Option.noConfusion h
  | some e =>
    rw [hf] at h
    obtain ⟨a, b⟩ := e
    have hb : b = q := by simpa using h
    have hm := List.mem_of_find?_eq_some hf
    have ha : a = port := by simpa using List.find?_some hf
    rw [← ha, ← hb]
    exact hm

theorem kill_snd (d : Bool) (k : Nat → Bool) (kn : List ProcessRecord) (p : Nat) :
    (ProcessWatcher.kill d k kn p).2 = ProcessWatcher.killRes d k p := by
  by_cases hd : d = true <;> by_cases hk : k p = true <;>
    simp [ProcessWatcher.kill, ProcessWatcher.killRes, hd, hk]

theorem kill_fst_sublist (d : Bool) (k : Nat → Bool) (kn : List ProcessRecord)
    (p : Nat) : (ProcessWatcher.kill d k kn p).1.Sublist kn := by
  unfold ProcessWatcher.kill
  by_cases hd : d = true
  · rw [if_pos hd]
  · rw [if_neg hd]
    by_cases hk : k p = true
    · rw [if_pos hk]
      exact List.filter_sublist _
    · rw [if_neg hk]

theorem runKillListGo_fst_sublist (d : Bool) (k : Nat → Bool) (ps : List Nat) :
    ∀ kn evs, (ProcessWatcher.runKillListGo d k kn evs ps).1.Sublist kn := by
  induction ps with
  | nil => intro kn evs; exact List.Sublist.refl _
  | cons p ps ih =>
    intro kn evs
    simp only [ProcessWatcher.runKillListGo]
    exact (ih _ _).trans (kill_fst_sublist d k kn p)

theorem runKillListGo_snd (d : Bool) (k : Nat → Bool) (ps : List Nat) :
    ∀ kn evs, (ProcessWatcher.runKillListGo d k kn evs ps).2 =
      evs ++ ps.map (fun p => (p, ProcessWatcher.killRes d k p)) := by
  induction ps with
  | nil => intro kn evs; simp [ProcessWatcher.runKillListGo]
  | cons p ps ih =>
    intro kn evs
    simp only [ProcessWatcher.runKillListGo, List.map_cons]
    rw [ih, kill_snd]
    simp

theorem handleNewPort_some_iff (strategy : String) (b : Int) (known : PortMap)
    (np : Int) (npid : Nat) (t : Int) (tp : Nat) :
    PortWatcher.handleNewPort strategy b known np npid = some (t, tp) ↔
      (t = PortWatcher.resolveTarget strategy b np ∧ b ≤ t ∧
        lookupPort known t = some tp ∧ tp ≠ 0 ∧ tp ≠ npid) := by
  rcases hl : lookupPort known (PortWatcher.resolveTarget strategy b np) with _ | q
  · constructor
    · intro h
      simp [PortWatcher.handleNewPort, hasPort_eq, hl] at h
    · rintro ⟨rfl, _, hl2, _⟩
      rw [hl] at hl2
      exact Option.noConfusion hl2
  · by_cases hge : PortWatcher.resolveTarget strategy b np ≥ b
    · by_cases hq : q = 0 ∨ q = npid
      · constructor
        · intro h
          simp [PortWatcher.handleNewPort, hasPort_eq, hl, hge, hq] at h
        · rintro ⟨rfl, _, hl2, hq0, hqn⟩
          rw [hl] at hl2
          obtain rfl : q = tp := by simpa using hl2
          rcases hq with hq | hq
          · exact absurd hq hq0
          · exact absurd hq hqn
      · constructor
        · intro h
          have h' : some (PortWatcher.resolveTarget strategy b np, q) = some (t, tp) := by
            simpa [PortWatcher.handleNewPort, hasPort_eq, hl, hge, hq] using h
          obtain ⟨rfl, rfl⟩ : PortWatcher.resolveTarget strategy b np = t ∧ q = tp := by
            simpa using h'
          refine ⟨rfl, hge, hl, ?_, ?_⟩
          · intro h0; exact hq (Or.inl h0)
          · intro hn; exact hq (Or.inr hn)
        · rintro ⟨rfl, _, hl2, hq0, hqn⟩
          rw [hl] at hl2
          obtain rfl : q = tp := by simpa using hl2
          simp [PortWatcher.handleNewPort, hasPort_eq, hl, hge, hq]
    · constructor
      · intro h
        simp [PortWatcher.handleNewPort, hasPort_eq, hl, hge] at h
      · rintro ⟨rfl, hge2, _, _⟩
        exact absurd hge2 hge

theorem resolveTarget_chain (b n : Int) :
    PortWatcher.resolveTarget "chain" b n = n - 1 := by
  unfold PortWatcher.resolveTarget
  rw [if_pos rfl]

theorem resolveTarget_killBase (b n : Int) :
    PortWatcher.resolveTarget "kill-base" b n = if n > b then b else -1 := by
  unfold PortWatcher.resolveTarget
  rw [if_neg (by decide)]
  rw [if_pos rfl]

/-! ## Claim theorems -/

/-- C5: state effect of the process-side Terminator on its known-set.  In
dry-run mode kill performs no termination and leaves the known-set
unchanged; in live mode a successful termination purges exactly the target
pid from the known-set immediately, and a failed one leaves the known-set
untouched. -/
theorem terminator_state_effect (dryRun : Bool) (killOk : Nat → Bool)
    (known : List ProcessRecord) (pid : Nat) :
    (dryRun = true →
      ProcessWatcher.kill dryRun killOk known pid = (known, .skippedDryRun)) ∧
    (dryRun = false → killOk pid = true →
      ((∀ r, r ∈ (ProcessWatcher.kill dryRun killOk known pid).1 ↔
          (r ∈ known ∧ r.pid ≠ pid)) ∧
        (ProcessWatcher.kill dryRun killOk known pid).2 = .killed)) ∧
    (dryRun = false → killOk pid = false →
      ProcessWatcher.kill dryRun killOk known pid = (known, .failed)) := by
  refine ⟨?_, ?_, ?_⟩
  · rintro rfl
    rfl
  · rintro rfl hk
    constructor
    · intro r
      simp [ProcessWatcher.kill, hk, List.mem_filter]
    · simp [ProcessWatcher.kill, hk]
  · rintro rfl hk
    simp [ProcessWatcher.kill, hk]

/-- Witness for C5 at a concrete live-mode input. -/
theorem terminator_state_effect_witness :
    (∀ r, r ∈ (ProcessWatcher.kill false (fun _ => true)
        [⟨10, "a", 0, none, none⟩, ⟨11, "b", 0, none, none⟩] 10).1 ↔
      (r ∈ [⟨10, "a", 0, none, none⟩, ⟨11, "b", 0, none, none⟩] ∧
        r.pid ≠ 10)) ∧
    (ProcessWatcher.kill false (fun _ => true)
        [⟨10, "a", 0, none, none⟩, ⟨11, "b", 0, none, none⟩] 10).2 = .killed :=
  (terminator_state_effect false (fun _ => true)
    [⟨10, "a", 0, none, none⟩, ⟨11, "b", 0, none, none⟩] 10).2.1 rfl rfl

/-- C8: start-time resolution.  With a creation timestamp beginning with 14
digits, getStartTime is the date built from exactly those six leading
fields, whatever follows them (fractional seconds, timezone offset);
with no creation timestamp, or one whose 14-character digit prefix test
fails, it is the record firstSeen observation time. -/
theorem startTime_resolution (mk : Nat → Nat → Nat → Nat → Nat → Nat → Int)
    (r : ProcessRecord) :
    (r.creationDate = none → ProcessWatcher.getStartTime mk r = r.firstSeen) ∧
    (∀ s, r.creationDate = some s →
      ((∀ p rest, s.data = p ++ rest → p.length = 14 →
          p.all Char.isDigit = true →
          ProcessWatcher.getStartTime mk r =
            mk (natOfDigits (p.take 4)) (natOfDigits ((p.drop 4).take 2))
              (natOfDigits ((p.drop 6).take 2)) (natOfDigits ((p.drop 8).take 2))
              (natOfDigits ((p.drop 10).take 2))
              (natOfDigits ((p.drop 12).take 2))) ∧
        (¬ (14 ≤ s.data.length ∧ (s.data.take 14).all Char.isDigit = true) →
          ProcessWatcher.getStartTime mk r = r.firstSeen))) := by
  constructor
  · intro h
    simp [ProcessWatcher.getStartTime, h]
  · intro s hs
    constructor
    · intro p rest hsplit hlen hdig
      have htake : s.data.take 14 = p := by
        rw [hsplit, ← hlen, List.take_left]
      have hle : leading14 s = some p := by
        unfold leading14
        rw [htake, if_pos ⟨hlen, hdig⟩]
      simp [ProcessWatcher.getStartTime, hs, hle]
    · intro hfail
      have hle : leading14 s = none := by
        unfold leading14
        rw [if_neg ?_]
        rintro ⟨h1, h2⟩
        refine hfail ⟨?_, h2⟩
        rw [List.length_take] at h1
        exact min_eq_left_iff.mp h1
      simp [ProcessWatcher.getStartTime, hs, hle]

/-- Witness for C8 at the WMI timestamp format from the source comment. -/
theorem startTime_resolution_witness :
    ProcessWatcher.getStartTime
      (fun y mo d h mi s =>
        (((((y * 100 + mo) * 100 + d) * 100 + h) * 100 + mi) * 100 + s : Int))
      ⟨77, "wmic", 5, some "20260219200036.437206+300", none⟩ =
      20260219200036 := by
  have h := ((startTime_resolution
      (fun y mo d h mi s =>
        (((((y * 100 + mo) * 100 + d) * 100 + h) * 100 + mi) * 100 + s : Int))
      ⟨77, "wmic", 5, some "20260219200036.437206+300", none⟩).2
      "20260219200036.437206+300" rfl).1
      "20260219200036".data ".437206+300".data (by decide) (by decide) (by decide)
  rw [h]
  decide

/-- C1 (amended): the termination gate — re-fetching live process info and
the case-insensitive filter check — guards the port reconciler only: the
port-side tryKill invokes killProcess only when the fresh lookup succeeds,
the looked-up command matches the filter and dry-run is off, skipping (not
failing) on an absent target and on a filter mismatch.  The process-side
kill has no such gate: it invokes killProcess exactly when dry-run is off,
with no per-pid re-fetch and no filter check (its snapshot was pre-filtered
by process name). -/
theorem termination_gate :
    (∀ filter dryRun env pid,
        issuesKill (PortWatcher.tryKill filter dryRun env pid) = true →
          dryRun = false ∧
            ∃ info, env.procInfo pid = some info ∧
              PortWatcher.matchesFilter filter info = true) ∧
    (∀ filter dryRun env pid, env.procInfo pid = none →
        PortWatcher.tryKill filter dryRun env pid = .skipGone) ∧
    (∀ filter dryRun env pid info, env.procInfo pid = some info →
        PortWatcher.matchesFilter filter info = false →
        PortWatcher.tryKill filter dryRun env pid = .skipFilter) ∧
    (∀ dryRun killOk known pid,
        ProcessWatcher.pIssuesKill
          (ProcessWatcher.kill dryRun killOk known pid).2 = !dryRun) := by
  refine ⟨?_, ?_, ?_, ?_⟩
  · intro filter dryRun env pid h
    rcases hpi : env.procInfo pid with _ | info
    · simp [PortWatcher.tryKill, hpi, issuesKill] at h
    · simp only [PortWatcher.tryKill, hpi] at h
      by_cases hm : PortWatcher.matchesFilter filter info = true
      · rw [if_pos hm] at h
        by_cases hd : dryRun = true
        · rw [if_pos hd] at h
          simp [issuesKill] at h
        · have hd' : dryRun = false := by simpa using hd
          exact ⟨hd', info, rfl, hm⟩
      · rw [if_neg hm] at h
        simp [issuesKill] at h
  · intro filter dryRun env pid h
    simp [PortWatcher.tryKill, h]
  · intro filter dryRun env pid info h hm
    simp [PortWatcher.tryKill, h, hm]
  · intro dryRun killOk known pid
    by_cases hd : dryRun = true <;> by_cases hk : killOk pid = true <;>
      simp [ProcessWatcher.kill, ProcessWatcher.pIssuesKill, hd, hk]

/-- Witness for C1 (amended) at a concrete absent-target input. -/
theorem termination_gate_witness :
    PortWatcher.tryKill ["node"] false ⟨fun _ => none, fun _ => true⟩ 7 =
      .skipGone :=
  termination_gate.2.1 ["node"] false ⟨fun _ => none, fun _ => true⟩ 7 rfl

/-- C1 counterexample: on a concrete process-reconciler tick, pid 10 is sent
to the kill path and killProcess is invoked and succeeds (result killed),
although the live command of pid 10 (the same command the snapshot reports)
does not match the configured filter — the claimed pre-kill re-fetch and
filter gate do not exist on the process path. -/
theorem termination_gate_counterexample :
    (ProcessWatcher.tick (fun _ _ _ _ _ _ => 0) (fun _ => true)
        { filter := ["node"], dryRun := false } 0 0 []
        [⟨10, "foo bar", some 1, none⟩, ⟨11, "foo bar", some 2, none⟩]).killEvents
      = [(10, .killed)] ∧
    PortWatcher.matchesFilter ["node"] ⟨10, "foo bar", some 1, none⟩ = false := by
  decide

/-- C3: the strategy resolver.  Under chain the computed target is
newPort - 1; under kill-base it is the base port and only when
newPort > basePort.  A computed target is passed on to a termination
attempt exactly when it lies at or above the base port, is present in the
known-set, and its recorded owner pid differs from the new pid (owner pids
being positive on every real port map). -/
theorem strategy_resolver_actionable (basePort : Int) (known : PortMap)
    (newPort : Int) (newPid : Nat) (hbase : 0 ≤ basePort)
    (hpos : ∀ e ∈ known, 0 < e.2) :
    (∀ t tp,
      PortWatcher.handleNewPort "chain" basePort known newPort newPid =
          some (t, tp) ↔
        (t = newPort - 1 ∧ basePort ≤ t ∧ lookupPort known t = some tp ∧
          tp ≠ newPid)) ∧
    (∀ t tp,
      PortWatcher.handleNewPort "kill-base" basePort known newPort newPid =
          some (t, tp) ↔
        (t = basePort ∧ basePort < newPort ∧ lookupPort known t = some tp ∧
          tp ≠ newPid)) := by
  constructor
  · intro t tp
    rw [handleNewPort_some_iff, resolveTarget_chain]
    constructor
    · rintro ⟨rfl, hge, hl, _, hne⟩
      exact ⟨rfl, hge, hl, hne⟩
    · rintro ⟨rfl, hge, hl, hne⟩
      have h0 : 0 < tp := hpos _ (lookupPort_mem known _ tp hl)
      exact ⟨rfl, hge, hl, Nat.pos_iff_ne_zero.mp h0, hne⟩
  · intro t tp
    rw [handleNewPort_some_iff, resolveTarget_killBase]
    constructor
    · rintro ⟨rfl, hge, hl, _, hne⟩
      by_cases hgt : newPort > basePort
      · rw [if_pos hgt] at hl hge ⊢
        exact ⟨rfl, hgt, hl, hne⟩
      · rw [if_neg hgt] at hge
        omega
    · rintro ⟨rfl, hgt, hl, hne⟩
      have h0 : 0 < tp := hpos _ (lookupPort_mem known _ tp hl)
      rw [if_pos hgt]
      exact ⟨rfl, le_refl _, hl, Nat.pos_iff_ne_zero.mp h0, hne⟩

/-- Witness for C3 at the chain example of the specification. -/
theorem strategy_resolver_witness :
    PortWatcher.handleNewPort "chain" 3000 [(3000, 111)] 3001 222 =
        some (3000, 111) ↔
      ((3000 : Int) = 3001 - 1 ∧ (3000 : Int) ≤ 3000 ∧
        lookupPort [(3000, 111)] 3000 = some 111 ∧ (111 : Nat) ≠ 222) :=
  (strategy_resolver_actionable 3000 [(3000, 111)] 3001 222 (by decide)
    (by decide)).1 3000 111

/-- C6 (amended): the process watcher's start runs one complete tick
(snapshot, diff, kill decisions) immediately before arming the interval
timer; the port watcher's start (both revisions) only seeds the known-set
with the initial scan and arms the timer — it performs no diffing, no
detection and no kill decision, which first happen one interval later. -/
theorem immediate_first_pass (mk : Nat → Nat → Nat → Nat → Nat → Nat → Int)
    (killOk : Nat → Bool) (cfg : WatcherConfig) (serviceStart now : Int)
    (psnap : List ProcessInfo) (snap : PortMap) (hf : cfg.filter ≠ []) :
    ProcessWatcher.start mk killOk cfg serviceStart now psnap =
      { armed := true, ranTick := true,
        result := some (ProcessWatcher.tick mk killOk cfg serviceStart now
          [] psnap) } ∧
    PortWatcher.start cfg snap =
      { armed := true, known := snap, dets := [], killEvents := [] } := by
  constructor
  · unfold ProcessWatcher.start
    rw [if_neg (by simp [List.isEmpty_iff, hf])]
  · rfl

/-- Witness for C6 (amended) at a concrete configuration. -/
theorem immediate_first_pass_witness :
    ProcessWatcher.start (fun _ _ _ _ _ _ => 0) (fun _ => true)
        { filter := ["node"] } 0 0 [] =
      { armed := true, ranTick := true,
        result := some (ProcessWatcher.tick (fun _ _ _ _ _ _ => 0)
          (fun _ => true) { filter := ["node"] } 0 0 [] []) } ∧
    PortWatcher.start { filter := ["node"] } [(1, 2)] =
      { armed := true, known := [(1, 2)], dets := [], killEvents := [] } :=
  immediate_first_pass (fun _ _ _ _ _ _ => 0) (fun _ => true)
    { filter := ["node"] } 0 0 [] [(1, 2)] (by decide)

/-- C6 counterexample: the port watcher's start performs no reconciliation
pass.  On the concrete snapshot {3000 ↦ 111}, start hands nothing to
handleNewPort, while a tick over the same snapshot from the fresh (empty)
known-set detects port 3000 — so the complete pass (snapshot, diff, kill
decisions) claimed to run at startup does not run there. -/
theorem immediate_first_pass_counterexample :
    (PortWatcher.start
        { strategy := "chain", basePort := 3000, range := 20,
          filter := ["node"] } [(3000, 111)]).dets = [] ∧
    (PortWatcher.tick
        { strategy := "chain", basePort := 3000, range := 20,
          filter := ["node"] }
        ⟨fun _ => none, fun _ => false⟩ [] [(3000, 111)]).dets =
      [(3000, 111)] := by
  decide

/-- C7 (amended): an invalid strategy is fatal in the CLI before any watcher
is constructed; a missing process-name filter stops the process watcher's
start before any tick runs or any timer is armed; the port watcher,
however, arms its interval timer regardless of the filter. -/
theorem config_error_startup :
    (∀ s cfg, cliStrategyOk s = false → cliAction s cfg = none) ∧
    (∀ mk killOk cfg serviceStart now snap, cfg.filter = [] →
        ProcessWatcher.start mk killOk cfg serviceStart now snap =
          { armed := false, ranTick := false, result := none }) ∧
    (∀ cfg snap, (PortWatcher.start cfg snap).armed = true) := by
  refine ⟨?_, ?_, ?_⟩
  · intro s cfg h
    simp only [cliStrategyOk, Bool.or_eq_false_iff, decide_eq_false_iff_not] at h
    unfold cliAction
    rw [if_pos h]
  · intro mk killOk cfg serviceStart now snap h
    simp [ProcessWatcher.start, h]
  · intro cfg snap
    rfl

/-- Witness for C7 (amended) at a concrete invalid strategy. -/
theorem config_error_startup_witness :
    cliAction "qqq" { } = none :=
  config_error_startup.1 "qqq" { } (by decide)

/-- C7 counterexample: with an empty filter the port watcher still arms its
timer and its ticks still run and detect new ports, so a missing filter is
not fatal at startup in port mode and the reconciliation loop is entered. -/
theorem config_error_startup_counterexample :
    ({ filter := [] } : WatcherConfig).filter = [] ∧
    (PortWatcher.start { filter := [] } [(3000, 111)]).armed = true ∧
    (PortWatcher.tick { filter := [] } ⟨fun _ => none, fun _ => false⟩
        (PortWatcher.start { filter := [] } [(3000, 111)]).known
        [(3000, 111), (3001, 222)]).dets = [(3001, 222)] := by
  decide


theorem tryKill_nil_filter (d : Bool) (env : SysEnv) (p : Nat) :
    issuesKill (PortWatcher.tryKill [] d env p) = false := by
  rcases hpi : env.procInfo p with _ | info
  · simp [PortWatcher.tryKill, hpi, issuesKill]
  · simp [PortWatcher.tryKill, hpi, PortWatcher.matchesFilter, issuesKill]

theorem tickGo_killEvents (cfg : WatcherConfig) (env : SysEnv) (known : PortMap)
    (snap : PortMap) :
    ∀ dets kes, ∀ e ∈ (PortWatcher.tickGo cfg env known dets kes snap).2,
      e ∈ kes ∨ ∃ p, e = (p, PortWatcher.tryKill cfg.filter cfg.dryRun env p) := by
  induction snap with
  | nil => intro dets kes e he; exact Or.inl he
  | cons q rest ih =>
    intro dets kes e he
    simp only [PortWatcher.tickGo] at he
    by_cases hh : hasPort known q.1 = true
    · rw [if_pos hh] at he
      exact ih _ _ e he
    · rw [if_neg hh] at he
      rcases hnp : PortWatcher.handleNewPort cfg.strategy cfg.basePort known q.1 q.2
        with _ | t
      · simp only [hnp] at he
        exact ih _ _ e he
      · simp only [hnp] at he
        rcases ih _ _ e he with h | h
        · rcases List.mem_append.mp h with h | h
          · exact Or.inl h
          · exact Or.inr ⟨t.2, by simpa using h⟩
        · exact Or.inr h

theorem tickMBGo_killEvents (cfg : WatcherConfig) (env : SysEnv)
    (known : PortMap) (snap : PortMap) :
    ∀ dets kes, ∀ e ∈ (PortWatcher.tickMBGo cfg env known dets kes snap).2,
      e ∈ kes ∨ ∃ p, e = (p, PortWatcher.tryKill cfg.filter cfg.dryRun env p) := by
  induction snap with
  | nil => intro dets kes e he; exact Or.inl he
  | cons q rest ih =>
    intro dets kes e he
    simp only [PortWatcher.tickMBGo] at he
    by_cases hrel : PortWatcher.getRelevantBase cfg q.1 = -1
    · rw [if_pos hrel] at he
      exact ih _ _ e he
    · rw [if_neg hrel] at he
      by_cases hh : hasPort known q.1 = true
      · rw [if_pos hh] at he
        exact ih _ _ e he
      · rw [if_neg hh] at he
        rcases hnp : PortWatcher.handleNewPort cfg.strategy
            (PortWatcher.getRelevantBase cfg q.1) known q.1 q.2 with _ | t
        · simp only [hnp] at he
          exact ih _ _ e he
        · simp only [hnp] at he
          rcases ih _ _ e he with h | h
          · rcases List.mem_append.mp h with h | h
            · exact Or.inl h
            · exact Or.inr ⟨t.2, by simpa using h⟩
          · exact Or.inr h

theorem runGo_killEvents (cfg : WatcherConfig) (env : SysEnv)
    (snaps : List PortMap) :
    ∀ known kes, ∀ e ∈ (PortWatcher.runGo cfg env known kes snaps).2,
      e ∈ kes ∨ ∃ p, e = (p, PortWatcher.tryKill cfg.filter cfg.dryRun env p) := by
  induction snaps with
  | nil => intro kn kes e he; exact Or.inl he
  | cons s rest ih =>
    intro kn kes e he
    simp only [PortWatcher.runGo] at he
    rcases ih _ _ e he with h | h
    · rcases List.mem_append.mp h with h | h
      · exact Or.inl h
      · simp only [PortWatcher.tick] at h
        rcases tickGo_killEvents cfg env kn s [] [] e h with h0 | h0
        · exact absurd h0 (List.not_mem_nil e)
        · exact Or.inr h0
    · exact Or.inr h

theorem runMBGo_killEvents (cfg : WatcherConfig) (env : SysEnv)
    (snaps : List PortMap) :
    ∀ known kes, ∀ e ∈ (PortWatcher.runMBGo cfg env known kes snaps).2,
      e ∈ kes ∨ ∃ p, e = (p, PortWatcher.tryKill cfg.filter cfg.dryRun env p) := by
  induction snaps with
  | nil => intro kn kes e he; exact Or.inl he
  | cons s rest ih =>
    intro kn kes e he
    simp only [PortWatcher.runMBGo] at he
    rcases ih _ _ e he with h | h
    · rcases List.mem_append.mp h with h | h
      · exact Or.inl h
      · simp only [PortWatcher.tickMB] at h
        rcases tickMBGo_killEvents cfg env kn s [] [] e h with h0 | h0
        · exact absurd h0 (List.not_mem_nil e)
        · exact Or.inr h0
    · exact Or.inr h

theorem step5Go_snd (mk : Nat → Nat → Nat → Nat → Nat → Nat → Int) (d : Bool)
    (k : Nat → Bool) (m ss now : Int) (l : List ProcessRecord) :
    ∀ kn evs, (ProcessWatcher.step5Go mk d k m ss now kn evs l).2 =
      evs ++ (l.filter (ProcessWatcher.ageExceeded mk m ss now)).map
        (fun r => (r.pid, ProcessWatcher.killRes d k r.pid)) := by
  induction l with
  | nil => intro kn evs; simp [ProcessWatcher.step5Go]
  | cons r rest ih =>
    intro kn evs
    simp only [ProcessWatcher.step5Go]
    by_cases hc : ProcessWatcher.ageExceeded mk m ss now r = true
    · rw [if_pos hc, ih, kill_snd]
      simp [List.filter_cons, hc]
    · rw [if_neg hc, ih]
      simp [List.filter_cons, hc]

/-- C10: in port mode an empty (or missing) filter list makes matchesFilter
reject every process, so the termination gate skips every computed target:
over any initial scan and any sequence of later snapshots, under any
strategy, neither port-watcher revision ever invokes killProcess — while
the watcher still arms its timer and runs its loop. -/
theorem no_filter_never_kills (cfg : WatcherConfig) (env : SysEnv)
    (initialSnap : PortMap) (snaps : List PortMap) (hf : cfg.filter = []) :
    (∀ e ∈ (PortWatcher.run cfg env initialSnap snaps).2,
        issuesKill e.2 = false) ∧
    (∀ e ∈ (PortWatcher.runMB cfg env initialSnap snaps).2,
        issuesKill e.2 = false) ∧
    (PortWatcher.start cfg initialSnap).armed = true := by
  refine ⟨?_, ?_, rfl⟩
  · intro e he
    simp only [PortWatcher.run] at he
    rcases runGo_killEvents cfg env snaps _ _ e he with h | ⟨p, rfl⟩
    · exact absurd h (List.not_mem_nil e)
    · rw [hf]
      exact tryKill_nil_filter cfg.dryRun env p
  · intro e he
    simp only [PortWatcher.runMB] at he
    rcases runMBGo_killEvents cfg env snaps _ _ e he with h | ⟨p, rfl⟩
    · exact absurd h (List.not_mem_nil e)
    · rw [hf]
      exact tryKill_nil_filter cfg.dryRun env p

/-- Witness for C10 on a concrete two-snapshot run. -/
theorem no_filter_never_kills_witness :
    (∀ e ∈ (PortWatcher.run { filter := [] }
        ⟨fun p => some ⟨p, "node server.js", none, none⟩, fun _ => true⟩
        [(3000, 5)] [[(3000, 5), (3001, 6)]]).2,
      issuesKill e.2 = false) ∧
    (∀ e ∈ (PortWatcher.runMB { filter := [] }
        ⟨fun p => some ⟨p, "node server.js", none, none⟩, fun _ => true⟩
        [(3000, 5)] [[(3000, 5), (3001, 6)]]).2,
      issuesKill e.2 = false) ∧
    (PortWatcher.start { filter := [] } [(3000, 5)]).armed = true :=
  no_filter_never_kills { filter := [] }
    ⟨fun p => some ⟨p, "node server.js", none, none⟩, fun _ => true⟩
    [(3000, 5)] [[(3000, 5), (3001, 6)]] rfl

/-- C4: max-age eviction.  When maxAge is positive, a record of the step-5
known-set is sent to the kill path exactly when now minus its effective
start (the later of its start time and the watcher service start) strictly
exceeds maxAge minutes; hence a process whose start time predates the
watcher start is only aged out once now - serviceStart exceeds the limit;
and with maxAge unset or not positive no age eviction happens at all. -/
theorem max_age_eviction (mk : Nat → Nat → Nat → Nat → Nat → Nat → Int)
    (dryRun : Bool) (killOk : Nat → Bool) (maxAge serviceStart now : Int)
    (known : List ProcessRecord)
    (hnodup : (known.map (fun r => r.pid)).Nodup) :
    (0 < maxAge → ∀ r ∈ known,
      ((∃ res, (r.pid, res) ∈
          (ProcessWatcher.step5 mk dryRun killOk maxAge serviceStart now
            known).2) ↔
        now - max (ProcessWatcher.getStartTime mk r) serviceStart >
          maxAge * 60 * 1000)) ∧
    (0 < maxAge → ∀ r ∈ known,
      ProcessWatcher.getStartTime mk r ≤ serviceStart →
      ((∃ res, (r.pid, res) ∈
          (ProcessWatcher.step5 mk dryRun killOk maxAge serviceStart now
            known).2) ↔
        now - serviceStart > maxAge * 60 * 1000)) ∧
    (maxAge ≤ 0 →
      (ProcessWatcher.step5 mk dryRun killOk maxAge serviceStart now
        known).2 = []) := by
  have hmain : 0 < maxAge → ∀ r ∈ known,
      ((∃ res, (r.pid, res) ∈
          (ProcessWatcher.step5 mk dryRun killOk maxAge serviceStart now
            known).2) ↔
        now - max (ProcessWatcher.getStartTime mk r) serviceStart >
          maxAge * 60 * 1000) := by
    intro hpos r hr
    unfold ProcessWatcher.step5
    rw [if_pos hpos, step5Go_snd]
    simp only [List.nil_append]
    constructor
    · rintro ⟨res, hres⟩
      rcases List.mem_map.mp hres with ⟨r2, hr2, heq⟩
      have hpid : r2.pid = r.pid := (Prod.ext_iff.mp heq).1
      rcases List.mem_filter.mp hr2 with ⟨hr2m, hcond⟩
      have h12 : r2 = r := List.inj_on_of_nodup_map hnodup hr2m hr hpid
      rw [h12] at hcond
      exact of_decide_eq_true hcond
    · intro hage
      refine ⟨ProcessWatcher.killRes dryRun killOk r.pid, ?_⟩
      apply List.mem_map.mpr
      exact ⟨r, List.mem_filter.mpr ⟨hr, decide_eq_true hage⟩, rfl⟩
  refine ⟨hmain, ?_, ?_⟩
  · intro hpos r hr hle
    have h := hmain hpos r hr
    rw [max_eq_right hle] at h
    exact h
  · intro hle
    unfold ProcessWatcher.step5
    rw [if_neg (by omega)]

/-- Witness for C4 at a concrete over-age record. -/
theorem max_age_eviction_witness :
    (∃ res, ((10 : Nat), res) ∈
        (ProcessWatcher.step5 (fun _ _ _ _ _ _ => 0) false (fun _ => true)
          5 0 600001 [⟨10, "a", 0, none, none⟩]).2) ↔
      (600001 : Int) -
          max (ProcessWatcher.getStartTime (fun _ _ _ _ _ _ => 0)
            ⟨10, "a", 0, none, none⟩) 0 >
        5 * 60 * 1000 :=
  (max_age_eviction (fun _ _ _ _ _ _ => 0) false (fun _ => true) 5 0 600001
    [⟨10, "a", 0, none, none⟩] (by decide)).1 (by decide)
    ⟨10, "a", 0, none, none⟩ (by decide)


theorem step5Go_fst_sublist (mk : Nat → Nat → Nat → Nat → Nat → Nat → Int)
    (d : Bool) (k : Nat → Bool) (m ss now : Int) (l : List ProcessRecord) :
    ∀ kn evs, (ProcessWatcher.step5Go mk d k m ss now kn evs l).1.Sublist kn := by
  induction l with
  | nil => intro kn evs; exact List.Sublist.refl _
  | cons r rest ih =>
    intro kn evs
    simp only [ProcessWatcher.step5Go]
    by_cases hc : ProcessWatcher.ageExceeded mk m ss now r = true
    · rw [if_pos hc]
      exact (ih _ _).trans (kill_fst_sublist d k kn r.pid)
    · rw [if_neg hc]
      exact ih _ _

theorem step5_fst_sublist (mk : Nat → Nat → Nat → Nat → Nat → Nat → Int)
    (d : Bool) (k : Nat → Bool) (ma ss now : Int) (kn : List ProcessRecord) :
    (ProcessWatcher.step5 mk d k ma ss now kn).1.Sublist kn := by
  unfold ProcessWatcher.step5
  by_cases h : 0 < ma
  · rw [if_pos h]
    exact step5Go_fst_sublist mk d k (ma * 60 * 1000) ss now kn kn []
  · rw [if_neg h]

theorem step5_snd_mem (mk : Nat → Nat → Nat → Nat → Nat → Nat → Int)
    (d : Bool) (k : Nat → Bool) (ma ss now : Int) (kn : List ProcessRecord) :
    ∀ e ∈ (ProcessWatcher.step5 mk d k ma ss now kn).2, ∃ r ∈ kn, e.1 = r.pid := by
  intro e he
  unfold ProcessWatcher.step5 at he
  by_cases h : 0 < ma
  · rw [if_pos h, step5Go_snd] at he
    simp only [List.nil_append] at he
    rcases List.mem_map.mp he with ⟨r, hr, rfl⟩
    exact ⟨r, List.mem_of_mem_filter hr, rfl⟩
  · rw [if_neg h] at he
    exact absurd he (List.not_mem_nil e)

theorem step4Go_fst_sublist (mk : Nat → Nat → Nat → Nat → Nat → Nat → Int)
    (d : Bool) (k : Nat → Bool) (bc : List (List Char × List ProcessRecord)) :
    ∀ kn evs, (ProcessWatcher.step4Go mk d k kn evs bc).1.Sublist kn := by
  induction bc with
  | nil => intro kn evs; exact List.Sublist.refl _
  | cons g gs ih =>
    intro kn evs
    simp only [ProcessWatcher.step4Go]
    exact (ih _ _).trans (runKillListGo_fst_sublist d k _ kn evs)

theorem step4Go_snd_mem (mk : Nat → Nat → Nat → Nat → Nat → Nat → Int)
    (d : Bool) (k : Nat → Bool) (bc : List (List Char × List ProcessRecord)) :
    ∀ kn evs e, e ∈ (ProcessWatcher.step4Go mk d k kn evs bc).2 →
      e ∈ evs ∨ ∃ g ∈ bc, e.1 ∈ ProcessWatcher.clusterKills mk g.2 := by
  induction bc with
  | nil => intro kn evs e he; exact Or.inl he
  | cons g gs ih =>
    intro kn evs e he
    simp only [ProcessWatcher.step4Go] at he
    rcases ih _ _ e he with h | ⟨g2, hg2, hp⟩
    · rw [runKillListGo_snd] at h
      rcases List.mem_append.mp h with h | h
      · exact Or.inl h
      · right
        rcases List.mem_map.mp h with ⟨p, hp, rfl⟩
        exact ⟨g, List.mem_cons_self _ _, hp⟩
    · exact Or.inr ⟨g2, List.mem_cons_of_mem _ hg2, hp⟩

theorem pushGroup_mem (k : List Char) (r : ProcessRecord)
    (bc : List (List Char × List ProcessRecord)) :
    ∀ g ∈ ProcessWatcher.pushGroup k r bc, ∀ x ∈ g.2,
      (∃ g2 ∈ bc, x ∈ g2.2) ∨ x = r := by
  induction bc with
  | nil =>
    intro g hg x hx
    simp only [ProcessWatcher.pushGroup] at hg
    rcases List.mem_cons.mp hg with rfl | hg2
    · right
      simpa using hx
    · exact absurd hg2 (List.not_mem_nil g)
  | cons e rest ih =>
    intro g hg x hx
    simp only [ProcessWatcher.pushGroup] at hg
    by_cases he : e.1 = k
    · rw [if_pos he] at hg
      rcases List.mem_cons.mp hg with rfl | hg2
      · rcases List.mem_append.mp hx with h2 | h2
        · exact Or.inl ⟨e, List.mem_cons_self _ _, h2⟩
        · right
          simpa using h2
      · exact Or.inl ⟨g, List.mem_cons_of_mem _ hg2, hx⟩
    · rw [if_neg he] at hg
      rcases List.mem_cons.mp hg with rfl | hg2
      · exact Or.inl ⟨g, List.mem_cons_self _ _, hx⟩
      · rcases ih g hg2 x hx with ⟨g2, hg2m, hx2⟩ | h2
        · exact Or.inl ⟨g2, List.mem_cons_of_mem _ hg2m, hx2⟩
        · exact Or.inr h2

theorem step2Go_fst_nodup (now : Int) (snap : List ProcessInfo) :
    ∀ kn bc, (kn.map (fun r => r.pid)).Nodup →
      ((ProcessWatcher.step2Go now kn bc snap).1.map (fun r => r.pid)).Nodup := by
  induction snap with
  | nil => intro kn bc h; exact h
  | cons proc rest ih =>
    intro kn bc h
    rcases hf : kn.find? (fun r => r.pid = proc.pid) with _ | r0
    · simp only [ProcessWatcher.step2Go, hf]
      apply ih
      rw [List.map_append, List.nodup_append]
      refine ⟨h, List.nodup_singleton _, ?_⟩
      intro x hx hx2
      simp only [List.map_cons, List.map_nil, List.mem_singleton] at hx2
      subst hx2
      rcases List.mem_map.mp hx with ⟨y, hy, hyp⟩
      have hne := List.find?_eq_none.mp hf y hy
      simp only [decide_eq_true_eq] at hne
      exact hne hyp
    · simp only [ProcessWatcher.step2Go, hf]
      exact ih _ _ h

theorem step2Go_bc_pid (now : Int) (S : List Nat) :
    ∀ snap : List ProcessInfo, (∀ q ∈ snap, q.pid ∈ S) →
      ∀ kn bc, (∀ g ∈ bc, ∀ x ∈ g.2, x.pid ∈ S) →
      ∀ g ∈ (ProcessWatcher.step2Go now kn bc snap).2, ∀ x ∈ g.2, x.pid ∈ S := by
  intro snap
  induction snap with
  | nil => intro _ kn bc hbc; exact hbc
  | cons proc rest ih =>
    intro hS kn bc hbc
    have hS2 : ∀ q ∈ rest, q.pid ∈ S :=
      fun q hq => hS q (List.mem_cons_of_mem _ hq)
    rcases hf : kn.find? (fun q => q.pid = proc.pid) with _ | r0
    · simp only [ProcessWatcher.step2Go, hf]
      apply ih hS2
      intro g hg x hx
      rcases pushGroup_mem _ _ bc g hg x hx with ⟨g2, hg2, hx2⟩ | h2
      · exact hbc g2 hg2 x hx2
      · subst h2
        exact hS proc (List.mem_cons_self _ _)
    · simp only [ProcessWatcher.step2Go, hf]
      apply ih hS2
      intro g hg x hx
      rcases pushGroup_mem _ _ bc g hg x hx with ⟨g2, hg2, hx2⟩ | h2
      · exact hbc g2 hg2 x hx2
      · subst h2
        have hp := List.find?_some hf
        simp only [decide_eq_true_eq] at hp
        rw [hp]
        exact hS proc (List.mem_cons_self _ _)

theorem purgeStale_pid (kn : List ProcessRecord) (snap : List ProcessInfo) :
    ∀ r ∈ ProcessWatcher.purgeStale kn snap,
      r.pid ∈ snap.map (fun q => q.pid) := by
  intro r hr
  have h := (List.mem_filter.mp hr).2
  simpa using h

theorem pushCluster_mem (k : Int) (r : ProcessRecord)
    (cl : List (Int × List ProcessRecord)) :
    ∀ g ∈ ProcessWatcher.pushCluster k r cl, ∀ x ∈ g.2,
      (∃ g2 ∈ cl, x ∈ g2.2) ∨ x = r := by
  induction cl with
  | nil =>
    intro g hg x hx
    simp only [ProcessWatcher.pushCluster] at hg
    rcases List.mem_cons.mp hg with rfl | hg2
    · right
      simpa using hx
    · exact absurd hg2 (List.not_mem_nil g)
  | cons e rest ih =>
    intro g hg x hx
    simp only [ProcessWatcher.pushCluster] at hg
    by_cases he : e.1 = k
    · rw [if_pos he] at hg
      rcases List.mem_cons.mp hg with rfl | hg2
      · rcases List.mem_append.mp hx with h2 | h2
        · exact Or.inl ⟨e, List.mem_cons_self _ _, h2⟩
        · right
          simpa using h2
      · exact Or.inl ⟨g, List.mem_cons_of_mem _ hg2, hx⟩
    · rw [if_neg he] at hg
      rcases List.mem_cons.mp hg with rfl | hg2
      · exact Or.inl ⟨g, List.mem_cons_self _ _, hx⟩
      · rcases ih g hg2 x hx with ⟨g2, hg2m, hx2⟩ | h2
        · exact Or.inl ⟨g2, List.mem_cons_of_mem _ hg2m, hx2⟩
        · exact Or.inr h2

theorem setCluster_mem (k : Int) (v : List ProcessRecord)
    (cl : List (Int × List ProcessRecord)) :
    ∀ g ∈ ProcessWatcher.setCluster k v cl, g ∈ cl ∨ g.2 = v := by
  induction cl with
  | nil =>
    intro g hg
    simp only [ProcessWatcher.setCluster] at hg
    rcases List.mem_cons.mp hg with rfl | hg2
    · right; rfl
    · exact absurd hg2 (List.not_mem_nil g)
  | cons e rest ih =>
    intro g hg
    simp only [ProcessWatcher.setCluster] at hg
    by_cases he : e.1 = k
    · rw [if_pos he] at hg
      rcases List.mem_cons.mp hg with rfl | hg2
      · right; rfl
      · exact Or.inl (List.mem_cons_of_mem _ hg2)
    · rw [if_neg he] at hg
      rcases List.mem_cons.mp hg with rfl | hg2
      · exact Or.inl (List.mem_cons_self _ _)
      · rcases ih g hg2 with h | h
        · exact Or.inl (List.mem_cons_of_mem _ h)
        · exact Or.inr h

theorem clusterPassGo_mem (l : List ProcessRecord) :
    ∀ cl noP,
      (∀ g ∈ (ProcessWatcher.clusterPassGo cl noP l).1, ∀ x ∈ g.2,
        (∃ g2 ∈ cl, x ∈ g2.2) ∨ x ∈ l) ∧
      (∀ x ∈ (ProcessWatcher.clusterPassGo cl noP l).2, x ∈ noP ∨ x ∈ l) := by
  induction l with
  | nil =>
    intro cl noP
    exact ⟨fun g hg x hx => Or.inl ⟨g, hg, hx⟩, fun x hx => Or.inl hx⟩
  | cons r rest ih =>
    intro cl noP
    rcases hpp : r.ppid with _ | p
    · simp only [ProcessWatcher.clusterPassGo, hpp]
      constructor
      · intro g hg x hx
        rcases (ih cl (noP ++ [r])).1 g hg x hx with h | h
        · exact Or.inl h
        · exact Or.inr (List.mem_cons_of_mem _ h)
      · intro x hx
        rcases (ih cl (noP ++ [r])).2 x hx with h | h
        · rcases List.mem_append.mp h with h2 | h2
          · exact Or.inl h2
          · right
            simp only [List.mem_singleton] at h2
            subst h2
            exact List.mem_cons_self _ _
        · exact Or.inr (List.mem_cons_of_mem _ h)
    · simp only [ProcessWatcher.clusterPassGo, hpp]
      constructor
      · intro g hg x hx
        rcases (ih (ProcessWatcher.pushCluster (p : Int) r cl) noP).1 g hg x hx with h | h
        · rcases h with ⟨g2, hg2, hx2⟩
          rcases pushCluster_mem _ _ _ g2 hg2 x hx2 with h3 | h3
          · exact Or.inl h3
          · right
            subst h3
            exact List.mem_cons_self _ _
        · exact Or.inr (List.mem_cons_of_mem _ h)
      · intro x hx
        rcases (ih _ noP).2 x hx with h | h
        · exact Or.inl h
        · exact Or.inr (List.mem_cons_of_mem _ h)

theorem setSingles_mem (rs : List ProcessRecord) :
    ∀ cl, ∀ g ∈ ProcessWatcher.setSingles cl rs, ∀ x ∈ g.2,
      (∃ g2 ∈ cl, x ∈ g2.2) ∨ x ∈ rs := by
  induction rs with
  | nil => intro cl g hg x hx; exact Or.inl ⟨g, hg, hx⟩
  | cons r rest ih =>
    intro cl g hg x hx
    simp only [ProcessWatcher.setSingles] at hg
    rcases ih _ g hg x hx with ⟨g2, hg2, hx2⟩ | h
    · rcases setCluster_mem _ _ _ g2 hg2 with h2 | h2
      · exact Or.inl ⟨g2, h2, hx2⟩
      · right
        rw [h2] at hx2
        simp only [List.mem_singleton] at hx2
        subst hx2
        exact List.mem_cons_self _ _
    · exact Or.inr (List.mem_cons_of_mem _ h)

theorem buildClusters_mem (records : List ProcessRecord) :
    ∀ g ∈ ProcessWatcher.buildClusters records, ∀ x ∈ g.2, x ∈ records := by
  intro g hg x hx
  unfold ProcessWatcher.buildClusters at hg
  rcases setSingles_mem _ _ g hg x hx with ⟨g2, hg2, hx2⟩ | h
  · rcases (clusterPassGo_mem records [] []).1 g2 hg2 x hx2 with ⟨g3, hg3, _⟩ | h2
    · exact absurd hg3 (List.not_mem_nil g3)
    · exact h2
  · rcases (clusterPassGo_mem records [] []).2 x h with h2 | h2
    · exact absurd h2 (List.not_mem_nil x)
    · exact h2

theorem clusterInfosOf_members_mem (mk : Nat → Nat → Nat → Nat → Nat → Nat → Int)
    (records : List ProcessRecord) :
    ∀ ci ∈ ProcessWatcher.clusterInfosOf mk records, ∀ m ∈ ci.members,
      m ∈ records := by
  intro ci hci m hm
  unfold ProcessWatcher.clusterInfosOf ProcessWatcher.sortClusterInfos at hci
  have hci0 := (perm_stableSort _ _).mem_iff.mp hci
  rcases List.mem_map.mp hci0 with ⟨e, he, hmk2⟩
  have hmem : ci.members =
      stableSort (fun a b =>
        decide (ProcessWatcher.getStartTime mk a ≤ ProcessWatcher.getStartTime mk b))
        e.2 := by
    rw [← hmk2]
  rw [hmem] at hm
  exact buildClusters_mem records e he m ((perm_stableSort _ _).mem_iff.mp hm)

theorem clusterKills_mem (mk : Nat → Nat → Nat → Nat → Nat → Nat → Int)
    (records : List ProcessRecord) :
    ∀ p ∈ ProcessWatcher.clusterKills mk records, ∃ m ∈ records, m.pid = p := by
  intro p hp
  unfold ProcessWatcher.clusterKills at hp
  by_cases h1 : 1 < records.length
  · rw [if_pos h1] at hp
    by_cases h2 : 1 < (ProcessWatcher.clusterInfosOf mk records).length
    · rw [if_pos h2] at hp
      rcases List.mem_flatten.mp hp with ⟨l, hl, hpl⟩
      rcases List.mem_map.mp hl with ⟨ci, hci, rfl⟩
      rcases List.mem_map.mp hpl with ⟨m, hm, rfl⟩
      exact ⟨m, clusterInfosOf_members_mem mk records ci
        (List.mem_of_mem_dropLast hci) m hm, rfl⟩
    · rw [if_neg h2] at hp
      exact absurd hp (List.not_mem_nil p)
  · rw [if_neg h1] at hp
    exact absurd hp (List.not_mem_nil p)

theorem tick_eq (mk : Nat → Nat → Nat → Nat → Nat → Nat → Int)
    (killOk : Nat → Bool) (cfg : WatcherConfig) (ss now : Int)
    (known : List ProcessRecord) (snap : List ProcessInfo) :
    ProcessWatcher.tick mk killOk cfg ss now known snap =
      { known := (ProcessWatcher.step5 mk cfg.dryRun killOk (cfg.maxAge.getD 0)
          ss now
          (ProcessWatcher.step4Go mk cfg.dryRun killOk
            (ProcessWatcher.purgeStale
              (ProcessWatcher.step2Go now known [] snap).1 snap)
            [] (ProcessWatcher.step2Go now known [] snap).2).1).1,
        killEvents := (ProcessWatcher.step4Go mk cfg.dryRun killOk
            (ProcessWatcher.purgeStale
              (ProcessWatcher.step2Go now known [] snap).1 snap)
            [] (ProcessWatcher.step2Go now known [] snap).2).2 ++
          (ProcessWatcher.step5 mk cfg.dryRun killOk (cfg.maxAge.getD 0)
            ss now
            (ProcessWatcher.step4Go mk cfg.dryRun killOk
              (ProcessWatcher.purgeStale
                (ProcessWatcher.step2Go now known [] snap).1 snap)
              [] (ProcessWatcher.step2Go now known [] snap).2).1).2 } := rfl

/-- C9: invariant of the process-reconciler known-set.  Starting from a
known-set with at most one record per pid, after any tick the known-set
still has at most one record per pid, every surviving record's pid was in
that tick's snapshot (pids absent from the snapshot are purged within the
tick), and every pid sent to the kill path during the tick was present in
the snapshot (no kill for a disappeared pid). -/
theorem known_set_invariant (mk : Nat → Nat → Nat → Nat → Nat → Nat → Int)
    (killOk : Nat → Bool) (cfg : WatcherConfig) (serviceStart now : Int)
    (known : List ProcessRecord) (snap : List ProcessInfo)
    (hnodup : (known.map (fun r => r.pid)).Nodup) :
    (((ProcessWatcher.tick mk killOk cfg serviceStart now known snap).known.map
        (fun r => r.pid)).Nodup) ∧
    (∀ r ∈ (ProcessWatcher.tick mk killOk cfg serviceStart now known snap).known,
      r.pid ∈ snap.map (fun q => q.pid)) ∧
    (∀ e ∈ (ProcessWatcher.tick mk killOk cfg serviceStart now
        known snap).killEvents,
      e.1 ∈ snap.map (fun q => q.pid)) := by
  rw [tick_eq]
  have h1n := step2Go_fst_nodup now snap known [] hnodup
  have hK2sub : (ProcessWatcher.purgeStale
      (ProcessWatcher.step2Go now known [] snap).1 snap).Sublist
      (ProcessWatcher.step2Go now known [] snap).1 := List.filter_sublist _
  have hK2n : ((ProcessWatcher.purgeStale
      (ProcessWatcher.step2Go now known [] snap).1 snap).map
      (fun r => r.pid)).Nodup :=
    List.Nodup.sublist (hK2sub.map _) h1n
  have hS4sub := step4Go_fst_sublist mk cfg.dryRun killOk
    (ProcessWatcher.step2Go now known [] snap).2
    (ProcessWatcher.purgeStale (ProcessWatcher.step2Go now known [] snap).1 snap)
    []
  have hS5sub := step5_fst_sublist mk cfg.dryRun killOk (cfg.maxAge.getD 0)
    serviceStart now
    (ProcessWatcher.step4Go mk cfg.dryRun killOk
      (ProcessWatcher.purgeStale (ProcessWatcher.step2Go now known [] snap).1 snap)
      [] (ProcessWatcher.step2Go now known [] snap).2).1
  have hbc_pid : ∀ g ∈ (ProcessWatcher.step2Go now known [] snap).2,
      ∀ x ∈ g.2, x.pid ∈ snap.map (fun q => q.pid) := by
    apply step2Go_bc_pid now (snap.map (fun q => q.pid)) snap
      (fun q hq => List.mem_map.mpr ⟨q, hq, rfl⟩) known []
    intro g hg
    exact absurd hg (List.not_mem_nil g)
  refine ⟨?_, ?_, ?_⟩
  · exact List.Nodup.sublist (hS5sub.map _)
      (List.Nodup.sublist (hS4sub.map _) hK2n)
  · intro r hr
    exact purgeStale_pid _ snap r (hS4sub.subset (hS5sub.subset hr))
  · intro e he
    rcases List.mem_append.mp he with he | he
    · rcases step4Go_snd_mem mk cfg.dryRun killOk
          (ProcessWatcher.step2Go now known [] snap).2 _ [] e he with
        h | ⟨g, hg, hp⟩
      · exact absurd h (List.not_mem_nil e)
      · rcases clusterKills_mem mk g.2 e.1 hp with ⟨m, hm, hmp⟩
        rw [← hmp]
        exact hbc_pid g hg m hm
    · rcases step5_snd_mem mk cfg.dryRun killOk (cfg.maxAge.getD 0)
          serviceStart now _ e he with ⟨r, hr, hep⟩
      rw [hep]
      exact purgeStale_pid _ snap r (hS4sub.subset hr)

/-- Witness for C9 on a concrete two-record state and one-record snapshot. -/
theorem known_set_invariant_witness :
    (((ProcessWatcher.tick (fun _ _ _ _ _ _ => 0) (fun _ => true)
        { filter := ["node"] } 0 0
        [⟨10, "a", 0, none, none⟩, ⟨11, "b", 0, none, none⟩]
        [⟨11, "b", none, none⟩]).known.map (fun r => r.pid)).Nodup) ∧
    (∀ r ∈ (ProcessWatcher.tick (fun _ _ _ _ _ _ => 0) (fun _ => true)
        { filter := ["node"] } 0 0
        [⟨10, "a", 0, none, none⟩, ⟨11, "b", 0, none, none⟩]
        [⟨11, "b", none, none⟩]).known,
      r.pid ∈ [(⟨11, "b", none, none⟩ : ProcessInfo)].map (fun q => q.pid)) ∧
    (∀ e ∈ (ProcessWatcher.tick (fun _ _ _ _ _ _ => 0) (fun _ => true)
        { filter := ["node"] } 0 0
        [⟨10, "a", 0, none, none⟩, ⟨11, "b", 0, none, none⟩]
        [⟨11, "b", none, none⟩]).killEvents,
      e.1 ∈ [(⟨11, "b", none, none⟩ : ProcessInfo)].map (fun q => q.pid)) :=
  known_set_invariant (fun _ _ _ _ _ _ => 0) (fun _ => true)
    { filter := ["node"] } 0 0
    [⟨10, "a", 0, none, none⟩, ⟨11, "b", 0, none, none⟩]
    [⟨11, "b", none, none⟩] (by decide)

theorem clusterPassGo_snd_eq :
    ∀ (l : List ProcessRecord) cl noP,
      (ProcessWatcher.clusterPassGo cl noP l).2 =
        noP ++ l.filter (fun r => r.ppid = none) := by
  intro l
  induction l with
  | nil => intro cl noP; simp [ProcessWatcher.clusterPassGo]
  | cons r rest ih =>
    intro cl noP
    rcases hpp : r.ppid with _ | p
    · simp only [ProcessWatcher.clusterPassGo, hpp]
      rw [ih]
      simp [List.filter_cons, hpp]
    · simp only [ProcessWatcher.clusterPassGo, hpp]
      rw [ih]
      simp [List.filter_cons, hpp]

theorem pushCluster_keys (k : Int) (r : ProcessRecord)
    (cl : List (Int × List ProcessRecord)) :
    ∀ g ∈ ProcessWatcher.pushCluster k r cl, g.1 = k ∨ ∃ g2 ∈ cl, g.1 = g2.1 := by
  induction cl with
  | nil =>
    intro g hg
    simp only [ProcessWatcher.pushCluster] at hg
    rcases List.mem_cons.mp hg with rfl | hg2
    · exact Or.inl rfl
    · exact absurd hg2 (List.not_mem_nil g)
  | cons e rest ih =>
    intro g hg
    simp only [ProcessWatcher.pushCluster] at hg
    by_cases he : e.1 = k
    · rw [if_pos he] at hg
      rcases List.mem_cons.mp hg with rfl | hg2
      · exact Or.inr ⟨e, List.mem_cons_self _ _, rfl⟩
      · exact Or.inr ⟨g, List.mem_cons_of_mem _ hg2, rfl⟩
    · rw [if_neg he] at hg
      rcases List.mem_cons.mp hg with rfl | hg2
      · exact Or.inr ⟨g, List.mem_cons_self _ _, rfl⟩
      · rcases ih g hg2 with h | ⟨g2, hg2m, hk⟩
        · exact Or.inl h
        · exact Or.inr ⟨g2, List.mem_cons_of_mem _ hg2m, hk⟩

theorem clusterPassGo_keys :
    ∀ (l : List ProcessRecord) cl noP, (∀ g ∈ cl, 0 ≤ g.1) →
      ∀ g ∈ (ProcessWatcher.clusterPassGo cl noP l).1, 0 ≤ g.1 := by
  intro l
  induction l with
  | nil => intro cl noP h; exact h
  | cons r rest ih =>
    intro cl noP h
    rcases hpp : r.ppid with _ | p
    · simp only [ProcessWatcher.clusterPassGo, hpp]
      exact ih cl (noP ++ [r]) h
    · simp only [ProcessWatcher.clusterPassGo, hpp]
      apply ih
      intro g hg
      rcases pushCluster_keys (p : Int) r cl g hg with hk | ⟨g2, hg2, hk⟩
      · rw [hk]
        exact Int.natCast_nonneg p
      · rw [hk]
        exact h g2 hg2

theorem setCluster_fresh (k : Int) (v : List ProcessRecord) :
    ∀ cl : List (Int × List ProcessRecord), k ∉ cl.map (fun g => g.1) →
      ProcessWatcher.setCluster k v cl = cl ++ [(k, v)] := by
  intro cl
  induction cl with
  | nil => intro _; rfl
  | cons e rest ih =>
    intro h
    simp only [List.map_cons, List.mem_cons, not_or] at h
    simp only [ProcessWatcher.setCluster]
    rw [if_neg (fun he => h.1 he.symm), ih h.2]
    rfl

theorem setSingles_eq :
    ∀ (rs : List ProcessRecord) cl, (rs.map (fun r => r.pid)).Nodup →
      (∀ r ∈ rs, -(r.pid : Int) ∉ cl.map (fun g => g.1)) →
      ProcessWatcher.setSingles cl rs =
        cl ++ rs.map (fun r => (-(r.pid : Int), [r])) := by
  intro rs
  induction rs with
  | nil => intro cl _ _; simp [ProcessWatcher.setSingles]
  | cons r rest ih =>
    intro cl hnd hfresh
    simp only [List.map_cons] at hnd
    rcases List.nodup_cons.mp hnd with ⟨hnotin, hrest⟩
    simp only [ProcessWatcher.setSingles]
    rw [setCluster_fresh _ _ cl (hfresh r (List.mem_cons_self _ _))]
    rw [ih (cl ++ [(-(r.pid : Int), [r])]) hrest ?_]
    · simp [List.append_assoc]
    · intro r2 hr2 hmem
      rw [List.map_append] at hmem
      rcases List.mem_append.mp hmem with h | h
      · exact hfresh r2 (List.mem_cons_of_mem _ hr2) h
      · simp only [List.map_cons, List.map_nil, List.mem_singleton] at h
        have hne : r2.pid ≠ r.pid := by
          intro he
          exact hnotin (List.mem_map.mpr ⟨r2, hr2, he⟩)
        omega

theorem buildClusters_eq (records : List ProcessRecord)
    (hpos : ∀ r ∈ records, 0 < r.pid)
    (hnodup : (records.map (fun r => r.pid)).Nodup) :
    ProcessWatcher.buildClusters records =
      (ProcessWatcher.clusterPassGo [] [] records).1 ++
        ((ProcessWatcher.clusterPassGo [] [] records).2).map
          (fun r => (-(r.pid : Int), [r])) := by
  unfold ProcessWatcher.buildClusters
  apply setSingles_eq
  · have hsub : (ProcessWatcher.clusterPassGo [] [] records).2.Sublist records := by
      rw [clusterPassGo_snd_eq]
      simp only [List.nil_append]
      exact List.filter_sublist records
    exact List.Nodup.sublist (hsub.map _) hnodup
  · intro r hr hkey
    rcases List.mem_map.mp hkey with ⟨g, hg, hgk⟩
    have h0 := clusterPassGo_keys records [] []
      (fun g hg => absurd hg (List.not_mem_nil g)) g hg
    have hrrec : r ∈ records := by
      rcases (clusterPassGo_mem records [] []).2 r hr with h | h
      · exact absurd h (List.not_mem_nil r)
      · exact h
    have hrpos := hpos r hrrec
    omega

theorem pushCluster_self (k : Int) (r : ProcessRecord) :
    ∀ cl, ∃ g ∈ ProcessWatcher.pushCluster k r cl, g.1 = k ∧ r ∈ g.2 := by
  intro cl
  induction cl with
  | nil =>
    exact ⟨(k, [r]), List.mem_cons_self _ _, rfl, List.mem_singleton.mpr rfl⟩
  | cons e rest ih =>
    simp only [ProcessWatcher.pushCluster]
    by_cases he : e.1 = k
    · rw [if_pos he]
      exact ⟨(e.1, e.2 ++ [r]), List.mem_cons_self _ _, he,
        List.mem_append.mpr (Or.inr (List.mem_singleton.mpr rfl))⟩
    · rw [if_neg he]
      rcases ih with ⟨g, hg, hk, hr⟩
      exact ⟨g, List.mem_cons_of_mem _ hg, hk, hr⟩

theorem pushCluster_preserves (k : Int) (r : ProcessRecord) :
    ∀ cl, ∀ g ∈ cl, ∃ g2 ∈ ProcessWatcher.pushCluster k r cl,
      g2.1 = g.1 ∧ ∀ x ∈ g.2, x ∈ g2.2 := by
  intro cl
  induction cl with
  | nil => intro g hg; exact absurd hg (List.not_mem_nil g)
  | cons e rest ih =>
    intro g hg
    simp only [ProcessWatcher.pushCluster]
    by_cases he : e.1 = k
    · rw [if_pos he]
      rcases List.mem_cons.mp hg with rfl | hg2
      · exact ⟨(g.1, g.2 ++ [r]), List.mem_cons_self _ _, rfl,
          fun x hx => List.mem_append.mpr (Or.inl hx)⟩
      · exact ⟨g, List.mem_cons_of_mem _ hg2, rfl, fun x hx => hx⟩
    · rw [if_neg he]
      rcases List.mem_cons.mp hg with rfl | hg2
      · exact ⟨g, List.mem_cons_self _ _, rfl, fun x hx => hx⟩
      · rcases ih g hg2 with ⟨g2, hg2m, hk, hsub⟩
        exact ⟨g2, List.mem_cons_of_mem _ hg2m, hk, hsub⟩

theorem clusterPassGo_preserves :
    ∀ (l : List ProcessRecord) cl noP, ∀ g ∈ cl,
      ∃ g2 ∈ (ProcessWatcher.clusterPassGo cl noP l).1,
        g2.1 = g.1 ∧ ∀ x ∈ g.2, x ∈ g2.2 := by
  intro l
  induction l with
  | nil => intro cl noP g hg; exact ⟨g, hg, rfl, fun x hx => hx⟩
  | cons r rest ih =>
    intro cl noP g hg
    rcases hpp : r.ppid with _ | p
    · simp only [ProcessWatcher.clusterPassGo, hpp]
      exact ih cl (noP ++ [r]) g hg
    · simp only [ProcessWatcher.clusterPassGo, hpp]
      rcases pushCluster_preserves (p : Int) r cl g hg with ⟨g2, hg2, hk, hsub⟩
      rcases ih (ProcessWatcher.pushCluster (p : Int) r cl) noP g2 hg2 with
        ⟨g3, hg3, hk3, hsub3⟩
      exact ⟨g3, hg3, hk3.trans hk, fun x hx => hsub3 x (hsub x hx)⟩

theorem clusterPassGo_parented :
    ∀ (l : List ProcessRecord) cl noP, ∀ r ∈ l, ∀ p, r.ppid = some p →
      ∃ g ∈ (ProcessWatcher.clusterPassGo cl noP l).1,
        g.1 = (p : Int) ∧ r ∈ g.2 := by
  intro l
  induction l with
  | nil => intro cl noP r hr; exact absurd hr (List.not_mem_nil r)
  | cons r0 rest ih =>
    intro cl noP r hr p hp
    rcases List.mem_cons.mp hr with rfl | hr2
    · simp only [ProcessWatcher.clusterPassGo, hp]
      rcases pushCluster_self (p : Int) r cl with ⟨g, hg, hk, hrm⟩
      rcases clusterPassGo_preserves rest _ noP g hg with ⟨g2, hg2, hk2, hsub⟩
      exact ⟨g2, hg2, hk2.trans hk, hsub r hrm⟩
    · rcases hpp : r0.ppid with _ | p0
      · simp only [ProcessWatcher.clusterPassGo, hpp]
        exact ih cl (noP ++ [r0]) r hr2 p hp
      · simp only [ProcessWatcher.clusterPassGo, hpp]
        exact ih (ProcessWatcher.pushCluster (p0 : Int) r0 cl) noP r hr2 p hp

theorem pushCluster_ne (k : Int) (r : ProcessRecord) :
    ∀ cl, (∀ g ∈ cl, g.2 ≠ []) →
      ∀ g ∈ ProcessWatcher.pushCluster k r cl, g.2 ≠ [] := by
  intro cl
  induction cl with
  | nil =>
    intro _ g hg
    simp only [ProcessWatcher.pushCluster] at hg
    rcases List.mem_cons.mp hg with rfl | hg2
    · simp
    · exact absurd hg2 (List.not_mem_nil g)
  | cons e rest ih =>
    intro h g hg
    simp only [ProcessWatcher.pushCluster] at hg
    by_cases he : e.1 = k
    · rw [if_pos he] at hg
      rcases List.mem_cons.mp hg with rfl | hg2
      · simp
      · exact h g (List.mem_cons_of_mem _ hg2)
    · rw [if_neg he] at hg
      rcases List.mem_cons.mp hg with rfl | hg2
      · exact h g (List.mem_cons_self _ _)
      · exact ih (fun g2 hg2 => h g2 (List.mem_cons_of_mem _ hg2)) g hg2

theorem clusterPassGo_ne :
    ∀ (l : List ProcessRecord) cl noP, (∀ g ∈ cl, g.2 ≠ []) →
      ∀ g ∈ (ProcessWatcher.clusterPassGo cl noP l).1, g.2 ≠ [] := by
  intro l
  induction l with
  | nil => intro cl noP h; exact h
  | cons r rest ih =>
    intro cl noP h
    rcases hpp : r.ppid with _ | p
    · simp only [ProcessWatcher.clusterPassGo, hpp]
      exact ih cl (noP ++ [r]) h
    · simp only [ProcessWatcher.clusterPassGo, hpp]
      exact ih _ noP (pushCluster_ne (p : Int) r cl h)

theorem setSingles_ne :
    ∀ (rs : List ProcessRecord) cl, (∀ g ∈ cl, g.2 ≠ []) →
      ∀ g ∈ ProcessWatcher.setSingles cl rs, g.2 ≠ [] := by
  intro rs
  induction rs with
  | nil => intro cl h; exact h
  | cons r rest ih =>
    intro cl h g hg
    simp only [ProcessWatcher.setSingles] at hg
    refine ih _ ?_ g hg
    intro g2 hg2
    rcases setCluster_mem _ _ _ g2 hg2 with h2 | h2
    · exact h g2 h2
    · rw [h2]
      simp

theorem buildClusters_ne (records : List ProcessRecord) :
    ∀ g ∈ ProcessWatcher.buildClusters records, g.2 ≠ [] := by
  intro g hg
  unfold ProcessWatcher.buildClusters at hg
  refine setSingles_ne _ _ ?_ g hg
  exact clusterPassGo_ne records [] []
    (fun g2 hg2 => absurd hg2 (List.not_mem_nil g2))

theorem flatten_singles (rs : List ProcessRecord) :
    ((rs.map (fun r => (-(r.pid : Int), [r]))).map (fun g => g.2)).flatten = rs := by
  induction rs with
  | nil => rfl
  | cons r rest ih =>
    simp only [List.map_cons, List.flatten_cons, ih, List.singleton_append]

theorem pushCluster_flatten (k : Int) (r : ProcessRecord) :
    ∀ cl, ((ProcessWatcher.pushCluster k r cl).map (fun g => g.2)).flatten.Perm
      ((cl.map (fun g => g.2)).flatten ++ [r]) := by
  intro cl
  induction cl with
  | nil => simp [ProcessWatcher.pushCluster]
  | cons e rest ih =>
    simp only [ProcessWatcher.pushCluster]
    by_cases he : e.1 = k
    · rw [if_pos he]
      simp only [List.map_cons, List.flatten_cons]
      rw [List.append_assoc, List.append_assoc]
      exact List.Perm.append_left e.2 List.perm_append_comm
    · rw [if_neg he]
      simp only [List.map_cons, List.flatten_cons]
      rw [List.append_assoc]
      exact List.Perm.append_left e.2 ih

theorem clusterPassGo_flatten :
    ∀ (l : List ProcessRecord) cl noP,
      (((ProcessWatcher.clusterPassGo cl noP l).1.map (fun g => g.2)).flatten ++
        (ProcessWatcher.clusterPassGo cl noP l).2).Perm
      ((cl.map (fun g => g.2)).flatten ++ (noP ++ l)) := by
  intro l
  induction l with
  | nil =>
    intro cl noP
    simp [ProcessWatcher.clusterPassGo]
  | cons r rest ih =>
    intro cl noP
    rcases hpp : r.ppid with _ | p
    · simp only [ProcessWatcher.clusterPassGo, hpp]
      refine (ih cl (noP ++ [r])).trans ?_
      have heq : (noP ++ [r]) ++ rest = noP ++ (r :: rest) := by
        rw [List.append_assoc]
        rfl
      rw [heq]
    · simp only [ProcessWatcher.clusterPassGo, hpp]
      refine (ih (ProcessWatcher.pushCluster (p : Int) r cl) noP).trans ?_
      refine (List.Perm.append_right (noP ++ rest)
        (pushCluster_flatten (p : Int) r cl)).trans ?_
      rw [List.append_assoc]
      refine List.Perm.append_left ((cl.map (fun g => g.2)).flatten) ?_
      show (r :: (noP ++ rest)).Perm (noP ++ r :: rest)
      exact List.perm_middle.symm

theorem buildClusters_flatten (records : List ProcessRecord)
    (hpos : ∀ r ∈ records, 0 < r.pid)
    (hnodup : (records.map (fun r => r.pid)).Nodup) :
    ((ProcessWatcher.buildClusters records).map (fun g => g.2)).flatten.Perm
      records := by
  rw [buildClusters_eq records hpos hnodup, List.map_append, List.flatten_append,
    flatten_singles]
  have h := clusterPassGo_flatten records [] []
  simpa using h

theorem mkClusterInfos_flatten (mk : Nat → Nat → Nat → Nat → Nat → Nat → Int)
    (cl : List (Int × List ProcessRecord)) :
    ((ProcessWatcher.mkClusterInfos mk cl).map
      (fun ci => ci.members)).flatten.Perm
      ((cl.map (fun g => g.2)).flatten) := by
  induction cl with
  | nil => exact List.Perm.refl _
  | cons e rest ih =>
    simp only [ProcessWatcher.mkClusterInfos, List.map_cons, List.flatten_cons]
    exact List.Perm.append (perm_stableSort _ _) ih

theorem clusterInfosOf_flatten (mk : Nat → Nat → Nat → Nat → Nat → Nat → Int)
    (records : List ProcessRecord)
    (hpos : ∀ r ∈ records, 0 < r.pid)
    (hnodup : (records.map (fun r => r.pid)).Nodup) :
    ((ProcessWatcher.clusterInfosOf mk records).map
      (fun ci => ci.members)).flatten.Perm records := by
  unfold ProcessWatcher.clusterInfosOf ProcessWatcher.sortClusterInfos
  refine (List.Perm.flatten
    ((perm_stableSort _ _).map
      (fun ci : ProcessWatcher.ClusterInfo => ci.members))).trans ?_
  exact (mkClusterInfos_flatten mk _).trans
    (buildClusters_flatten records hpos hnodup)

theorem clusterInfosOf_startTime (mk : Nat → Nat → Nat → Nat → Nat → Nat → Int)
    (records : List ProcessRecord) :
    ∀ ci ∈ ProcessWatcher.clusterInfosOf mk records,
      (∀ m ∈ ci.members,
        ci.startTime ≤ ProcessWatcher.getStartTime mk m) ∧
      ∃ m ∈ ci.members, ci.startTime = ProcessWatcher.getStartTime mk m := by
  intro ci hci
  unfold ProcessWatcher.clusterInfosOf ProcessWatcher.sortClusterInfos at hci
  have hci0 := (perm_stableSort _ _).mem_iff.mp hci
  rcases List.mem_map.mp hci0 with ⟨e, he, heq⟩
  have hne : e.2 ≠ [] := buildClusters_ne records e he
  have hmem : ci.members =
      stableSort (fun a b =>
        decide (ProcessWatcher.getStartTime mk a ≤
          ProcessWatcher.getStartTime mk b)) e.2 := by
    rw [← heq]
  have hst : ci.startTime = ProcessWatcher.getStartTime mk
      ((stableSort (fun a b =>
        decide (ProcessWatcher.getStartTime mk a ≤
          ProcessWatcher.getStartTime mk b)) e.2).headD
        ProcessWatcher.defaultRecord) := by
    rw [← heq]
  rcases hs : stableSort (fun a b =>
      decide (ProcessWatcher.getStartTime mk a ≤
        ProcessWatcher.getStartTime mk b)) e.2 with _ | ⟨x, xs⟩
  · exfalso
    have hl := (perm_stableSort (fun a b =>
      decide (ProcessWatcher.getStartTime mk a ≤
        ProcessWatcher.getStartTime mk b)) e.2).length_eq
    rw [hs] at hl
    exact hne (List.length_eq_zero.mp hl.symm)
  · have hpw := pairwise_stableSort (fun a b =>
      decide (ProcessWatcher.getStartTime mk a ≤
        ProcessWatcher.getStartTime mk b))
      (fun x y z h1 h2 => decide_eq_true
        (le_trans (of_decide_eq_true h1) (of_decide_eq_true h2)))
      (fun x y => (le_total _ _).imp decide_eq_true decide_eq_true) e.2
    rw [hs] at hpw
    rcases List.pairwise_cons.mp hpw with ⟨hx, _⟩
    rw [hmem, hs, hst, hs]
    simp only [List.headD_cons]
    constructor
    · intro m hm
      rcases List.mem_cons.mp hm with rfl | hm2
      · exact le_refl _
      · exact of_decide_eq_true (hx m hm2)
    · exact ⟨x, List.mem_cons_self _ _, rfl⟩

/-- C2: the per-command duplicate-cluster eviction of the process reconciler.
For a byCommand group with more than one record (pids positive and
distinct): parentless records get synthetic negated-pid cluster keys that
collide with no real parent key and form their own singleton clusters;
every parented record lands in the cluster of its parent pid; every
cluster's start time is the earliest member start time; when exactly one
cluster exists no pid is sent to the kill path, whatever the group size;
and when several clusters with distinct start times exist, every member of
every cluster except the one with the latest start time is sent to the
kill path while the newest cluster is left untouched. -/
theorem cluster_eviction (mk : Nat → Nat → Nat → Nat → Nat → Nat → Int)
    (records : List ProcessRecord)
    (hlen : 1 < records.length)
    (hpos : ∀ r ∈ records, 0 < r.pid)
    (hnodup : (records.map (fun r => r.pid)).Nodup)
    (hdist : ((ProcessWatcher.clusterInfosOf mk records).map
      (fun ci => ci.startTime)).Nodup) :
    (∀ r ∈ records, r.ppid = none → ∀ r2 ∈ records, ∀ p, r2.ppid = some p →
      -(r.pid : Int) ≠ (p : Int)) ∧
    (∀ r ∈ records, r.ppid = none →
      (-(r.pid : Int), [r]) ∈ ProcessWatcher.buildClusters records) ∧
    (∀ r ∈ records, ∀ p, r.ppid = some p →
      ∃ g ∈ ProcessWatcher.buildClusters records, g.1 = (p : Int) ∧ r ∈ g.2) ∧
    (∀ ci ∈ ProcessWatcher.clusterInfosOf mk records,
      (∀ m ∈ ci.members,
        ci.startTime ≤ ProcessWatcher.getStartTime mk m) ∧
      ∃ m ∈ ci.members, ci.startTime = ProcessWatcher.getStartTime mk m) ∧
    ((ProcessWatcher.clusterInfosOf mk records).length = 1 →
      ProcessWatcher.clusterKills mk records = []) ∧
    (1 < (ProcessWatcher.clusterInfosOf mk records).length →
      ∃ kept ∈ ProcessWatcher.clusterInfosOf mk records,
        (∀ ci ∈ ProcessWatcher.clusterInfosOf mk records, ci ≠ kept →
          ci.startTime < kept.startTime) ∧
        (∀ ci ∈ ProcessWatcher.clusterInfosOf mk records, ci ≠ kept →
          ∀ m ∈ ci.members,
            m.pid ∈ ProcessWatcher.clusterKills mk records) ∧
        (∀ m ∈ kept.members,
          m.pid ∉ ProcessWatcher.clusterKills mk records)) := by
  refine ⟨?_, ?_, ?_, clusterInfosOf_startTime mk records, ?_, ?_⟩
  · intro r hr _ r2 hr2 p hp heq
    have h1 := hpos r hr
    have h2 := Int.natCast_nonneg p
    omega
  · intro r hr hnone
    rw [buildClusters_eq records hpos hnodup]
    apply List.mem_append.mpr
    right
    apply List.mem_map.mpr
    refine ⟨r, ?_, rfl⟩
    rw [clusterPassGo_snd_eq]
    simp only [List.nil_append]
    exact List.mem_filter.mpr ⟨hr, by simp [hnone]⟩
  · intro r hr p hp
    rcases clusterPassGo_parented records [] [] r hr p hp with ⟨g, hg, hk, hrm⟩
    rw [buildClusters_eq records hpos hnodup]
    exact ⟨g, List.mem_append.mpr (Or.inl hg), hk, hrm⟩
  · intro h1
    simp only [ProcessWatcher.clusterKills]
    rw [if_pos hlen, if_neg (by omega)]
  · intro hgt
    have hne : ProcessWatcher.clusterInfosOf mk records ≠ [] := by
      intro h0
      rw [h0] at hgt
      simp at hgt
    have hsplit := List.dropLast_append_getLast hne
    have hkills : ProcessWatcher.clusterKills mk records =
        ((ProcessWatcher.clusterInfosOf mk records).dropLast.map
          (fun ci => ci.members.map (fun m => m.pid))).flatten := by
      simp only [ProcessWatcher.clusterKills]
      rw [if_pos hlen, if_pos hgt]
    have hpw : (ProcessWatcher.clusterInfosOf mk records).Pairwise
        (fun a b => decide (a.startTime ≤ b.startTime) = true) := by
      unfold ProcessWatcher.clusterInfosOf ProcessWatcher.sortClusterInfos
      exact pairwise_stableSort
        (fun a b : ProcessWatcher.ClusterInfo =>
          decide (a.startTime ≤ b.startTime))
        (fun x y z h1 h2 => decide_eq_true
          (le_trans (of_decide_eq_true h1) (of_decide_eq_true h2)))
        (fun x y => (le_total x.startTime y.startTime).imp
          decide_eq_true decide_eq_true) _
    have hcross : ∀ ci ∈ (ProcessWatcher.clusterInfosOf mk records).dropLast,
        ci.startTime ≤
          ((ProcessWatcher.clusterInfosOf mk records).getLast hne).startTime := by
      intro ci hci
      have hpw2 := hpw
      rw [← hsplit] at hpw2
      rcases List.pairwise_append.mp hpw2 with ⟨_, _, hc⟩
      exact of_decide_eq_true (hc ci hci _ (List.mem_singleton.mpr rfl))
    have hdist2 := hdist
    rw [← hsplit, List.map_append] at hdist2
    rcases List.nodup_append.mp hdist2 with ⟨_, _, hdisjST⟩
    have hflat := (clusterInfosOf_flatten mk records hpos hnodup).map
      (fun r => r.pid)
    have hnodupF : (((ProcessWatcher.clusterInfosOf mk records).map
        (fun ci => ci.members)).flatten.map (fun m => m.pid)).Nodup :=
      hflat.nodup_iff.mpr hnodup
    have hdec : ((ProcessWatcher.clusterInfosOf mk records).map
        (fun ci => ci.members)).flatten =
        ((ProcessWatcher.clusterInfosOf mk records).dropLast.map
          (fun ci => ci.members)).flatten ++
          ((ProcessWatcher.clusterInfosOf mk records).getLast hne).members := by
      conv_lhs => rw [← hsplit]
      rw [List.map_append, List.flatten_append]
      simp
    rw [hdec, List.map_append] at hnodupF
    rcases List.nodup_append.mp hnodupF with ⟨_, _, hdisjP⟩
    refine ⟨(ProcessWatcher.clusterInfosOf mk records).getLast hne,
      List.getLast_mem hne, ?_, ?_, ?_⟩
    · intro ci hci hcine
      have hci2 := hci
      rw [← hsplit] at hci2
      rcases List.mem_append.mp hci2 with hciDL | hciK
      · refine lt_of_le_of_ne (hcross ci hciDL) ?_
        intro hst
        refine hdisjST (List.mem_map.mpr ⟨ci, hciDL, rfl⟩) ?_
        rw [hst]
        simp
      · exact absurd (List.mem_singleton.mp hciK) hcine
    · intro ci hci hcine m hm
      have hci2 := hci
      rw [← hsplit] at hci2
      rcases List.mem_append.mp hci2 with hciDL | hciK
      · rw [hkills]
        exact List.mem_flatten.mpr ⟨ci.members.map (fun m => m.pid),
          List.mem_map.mpr ⟨ci, hciDL, rfl⟩, List.mem_map.mpr ⟨m, hm, rfl⟩⟩
      · exact absurd (List.mem_singleton.mp hciK) hcine
    · intro m hm hmk
      rw [hkills] at hmk
      rcases List.mem_flatten.mp hmk with ⟨l, hl, hpin⟩
      rcases List.mem_map.mp hl with ⟨ci2, hci2, rfl⟩
      rcases List.mem_map.mp hpin with ⟨m2, hm2, hm2p⟩
      refine hdisjP (a := m2.pid) ?_ ?_
      · apply List.mem_map.mpr
        refine ⟨m2, ?_, rfl⟩
        exact List.mem_flatten.mpr ⟨ci2.members,
          List.mem_map.mpr ⟨ci2, hci2, rfl⟩, hm2⟩
      · rw [hm2p]
        exact List.mem_map.mpr ⟨m, hm, rfl⟩

/-- Witness for C2 on two same-command records with distinct parents and
distinct start times. -/
theorem cluster_eviction_witness :
    ∃ kept ∈ ProcessWatcher.clusterInfosOf (fun _ _ _ _ _ _ => 0)
        [⟨10, "c", 0, none, some 1⟩, ⟨11, "c", 5, none, some 2⟩],
      (∀ ci ∈ ProcessWatcher.clusterInfosOf (fun _ _ _ _ _ _ => 0)
          [⟨10, "c", 0, none, some 1⟩, ⟨11, "c", 5, none, some 2⟩],
        ci ≠ kept → ci.startTime < kept.startTime) ∧
      (∀ ci ∈ ProcessWatcher.clusterInfosOf (fun _ _ _ _ _ _ => 0)
          [⟨10, "c", 0, none, some 1⟩, ⟨11, "c", 5, none, some 2⟩],
        ci ≠ kept → ∀ m ∈ ci.members,
          m.pid ∈ ProcessWatcher.clusterKills (fun _ _ _ _ _ _ => 0)
            [⟨10, "c", 0, none, some 1⟩, ⟨11, "c", 5, none, some 2⟩]) ∧
      (∀ m ∈ kept.members,
        m.pid ∉ ProcessWatcher.clusterKills (fun _ _ _ _ _ _ => 0)
          [⟨10, "c", 0, none, some 1⟩, ⟨11, "c", 5, none, some 2⟩]) :=
  (cluster_eviction (fun _ _ _ _ _ _ => 0)
    [⟨10, "c", 0, none, some 1⟩, ⟨11, "c", 5, none, some 2⟩]
    (by decide) (by decide) (by decide) (by decide)).2.2.2.2.2 (by decide)

end AiDevServerWatcher
